import Mathlib

/-!
# raftkv: the replicated state machine (`service/fsm.go`)

A shallow embedding of `FSM` (Apply / Snapshot / Restore) and of
`fsmSnapshot` (Persist / Release).

The Go code is effectful.  Its effects are made explicit:

* `World` is the part of the machine the code touches: the scratch
  directories on disk, the open storage-engine handles, the live leveldb
  snapshots and iterators, and a trace of the calls made on the snapshot
  sink, the gzip writer and the restore stream.
* `Env` holds the collaborators whose code is not in `fsm.go`: the command
  decoder, the on-disk layout of the storage engine, and the archive codec.
* Failures of the operating system or storage engine that do not depend on
  data are supplied per call as `Option Error` (`none`: the call succeeds).
  These are the failures `fsm.go` checks for (`err != nil`).

Modelling choices for what `fsm.go` calls but does not define:

* an engine's contents are a list of key/value pairs; `Put` replaces the value of
  its key and a failed `Put` changes nothing;
* a leveldb snapshot is the contents at the instant it was taken; its iterator
  yields the pairs in order until it is exhausted or a read fails, and in both
  cases `Next()` is then false (the read error is what `Error()` reports);
* calls whose result `fsm.go` ignores (`db.Close`, `iter.Release`,
  `os.RemoveAll`, `sink.Cancel`, `sink.Close`, `r.Close`) take effect;
* the bytes a sink receives are traced once the gzip writer is closed; what
  reaches it before a failing `Tar` or `Close` is not traced.
-/

namespace service

/-! ## Data model -/

/-- Go `[]byte`. -/
abbrev Bytes := List Nat

/-- Contents of a storage engine: key/value pairs, most recent first. -/
abbrev KV := List (Bytes × Bytes)

/-- A directory tree: relative file name and file contents. -/
abbrev Files := List (Bytes × Bytes)

/-- Go `error` values (a nil error is `none : Option Error`). -/
inductive Error where
  | badMethod
  | notExist
  | ext (code : Nat)
deriving DecidableEq, Repr

/-- Source: `errBadMethod = errors.New("bad method")`. -/
def errBadMethod : Error := Error.badMethod

/-- Source: `proto.Request`, the decoded command. -/
structure proto.Request where
  Action : Nat
  Key : Bytes
  Data : Bytes
deriving DecidableEq, Repr

/-- Source: `config.DB`; only `Dir` is read by `fsm.go`. -/
structure config.DB where
  Dir : String
deriving DecidableEq, Repr

/-- Source: `raft.Log`; only `Data` is read by `fsm.go`. -/
structure raft.Log where
  Index : Nat
  Term : Nat
  Data : Bytes
deriving DecidableEq, Repr

/-- A directory made by `ioutil.TempDir(root, "state")`. -/
structure Path where
  root : String
  name : Nat
deriving DecidableEq, Repr

/-- Source: `*leveldb.DB`, an engine object: its identity, the directory it is
rooted in, and its contents. -/
structure leveldb.DB where
  id : Nat
  path : Path
  kv : KV
deriving DecidableEq, Repr

/-- Source: `*leveldb.Snapshot`: the contents of the engine at the instant
`GetSnapshot` was called. -/
structure leveldb.Snapshot where
  view : KV
deriving DecidableEq, Repr

/-- Externally visible calls, in program order. -/
inductive Event where
  | tempDir (p : Path)
  | removeAll (p : Path)
  | openFile (p : Path) (id : Nat)
  | dbPut (id : Nat) (key value : Bytes)
  | dbClose (id : Nat)
  | getSnapshot
  | snapshotRelease
  | newIterator
  | iterRelease
  | untar (p : Path)
  | tar (p : Path)
  | gzipClose (sink : Nat)
  | sinkWrite (sink : Nat) (b : Bytes)
  | sinkCancel (sink : Nat)
  | sinkClose (sink : Nat)
  | readerClose
deriving DecidableEq, Repr

/-- The resources the code acquires and releases, and the trace of calls. -/
structure World where
  dirs : List (Path × Files)
  openDBs : List Nat
  nextDB : Nat
  snapshots : Nat
  iters : Nat
  trace : List Event
deriving DecidableEq, Repr

/-- Collaborators of `fsm.go` whose code lives elsewhere.
`Write` is the constant `proto.Write`; `Unmarshal` is `proto.Unmarshal`;
`osTempDir` is `os.TempDir()`; `dbFiles` is the file tree the storage engine
keeps on disk for given contents and `recover` what opening an existing tree
yields; `Tar` is what `Tar(dir, w)` feeds to `w`; `gzipWrite` is what a gzip
writer has sent to its sink once closed; `gzipNewReader` checks the gzip header
and yields the reader; `Untar` is `Untar(dir, tar.NewReader(zr))`: the files
it left in `dir` and its error. -/
structure Env where
  Write : Nat
  Unmarshal : Bytes → Except Error proto.Request
  osTempDir : String
  dbFiles : KV → Files
  recover : Files → Except Error KV
  Tar : Files → Bytes
  Untar : Bytes → Files × Option Error
  gzipWrite : Bytes → Bytes
  gzipNewReader : Bytes → Except Error Bytes

/-! ## World primitives -/

/-- Append a call to the trace. -/
def World.log (w : World) (e : Event) : World :=
  { w with trace := w.trace ++ [e] }

/-- Files of directory `p`, if it exists. -/
def World.readDir (w : World) (p : Path) : Option Files :=
  (w.dirs.find? (fun d => d.1 = p)).map (fun d => d.2)

/-- Replace the files of directory `p` (no effect when `p` does not exist). -/
def World.writeDir (w : World) (p : Path) (files : Files) : World :=
  { w with dirs := w.dirs.map (fun d => if d.1 = p then (p, files) else d) }

/-- A directory name not in use. -/
def freshName (dirs : List (Path × Files)) : Nat :=
  (dirs.map (fun d => d.1.name)).foldr max 0 + 1

/-- Source: `ioutil.TempDir(root, "state")`: creates a new, empty directory
with a name not in use. -/
def ioutil.TempDir (fault : Option Error) (root : String) (w : World) :
    Except Error Path × World :=
  match fault with
  | some err => (.error err, w)
  | none =>
    let p : Path := { root := root, name := freshName w.dirs }
    (.ok p, { w with dirs := (p, []) :: w.dirs, trace := w.trace ++ [Event.tempDir p] })

/-- Source: `os.RemoveAll(path)`. -/
def os.RemoveAll (p : Path) (w : World) : World :=
  { w with dirs := w.dirs.filter (fun d => d.1 ≠ p), trace := w.trace ++ [Event.removeAll p] }

/-! ## Storage engine (goleveldb) -/

/-- Contents after a put: `key` now maps to `value`, other keys are kept. -/
def KV.put (kv : KV) (key value : Bytes) : KV :=
  (key, value) :: kv.filter (fun e => e.1 ≠ key)

/-- Value stored for `key`, if any. -/
def KV.get (kv : KV) (key : Bytes) : Option Bytes :=
  (kv.find? (fun e => e.1 = key)).map (fun e => e.2)

/-- Contents of the engine that opening a directory holding `files` yields:
a directory without files gives a new, empty engine; an existing tree is
recovered. -/
def openKV (env : Env) (files : Files) : Except Error KV :=
  match files with
  | [] => .ok []
  | f :: fs => env.recover (f :: fs)

/-- Source: `leveldb.OpenFile(path, nil)`.  The engine lays out its files in
the directory as soon as it is open. -/
def leveldb.OpenFile (env : Env) (fault : Option Error) (p : Path) (w : World) :
    Except Error leveldb.DB × World :=
  match fault with
  | some err => (.error err, w)
  | none =>
    match openKV env ((w.readDir p).getD []) with
    | .error err => (.error err, w)
    | .ok kv =>
      let db : leveldb.DB := { id := w.nextDB, path := p, kv := kv }
      let w1 := w.writeDir p (env.dbFiles kv)
      (.ok db, { w1 with openDBs := db.id :: w1.openDBs, nextDB := w1.nextDB + 1,
                         trace := w1.trace ++ [Event.openFile p db.id] })

/-- Source: `db.Put(key, value, nil)`. -/
def leveldb.DB.Put (env : Env) (fault : Option Error) (db : leveldb.DB)
    (key value : Bytes) (w : World) : Option Error × leveldb.DB × World :=
  match fault with
  | some err => (some err, db, w)
  | none =>
    let kv := KV.put db.kv key value
    (none, { db with kv := kv },
      (w.writeDir db.path (env.dbFiles kv)).log (Event.dbPut db.id key value))

/-- Source: `db.Get(key, nil)`; `none` is `leveldb.ErrNotFound`. -/
def leveldb.DB.Get (db : leveldb.DB) (key : Bytes) : Option Bytes :=
  KV.get db.kv key

/-- Source: `db.Close()`. -/
def leveldb.DB.Close (db : leveldb.DB) (w : World) : World :=
  { w with openDBs := w.openDBs.erase db.id, trace := w.trace ++ [Event.dbClose db.id] }

/-- Source: `db.GetSnapshot()`. -/
def leveldb.DB.GetSnapshot (fault : Option Error) (db : leveldb.DB) (w : World) :
    Except Error leveldb.Snapshot × World :=
  match fault with
  | some err => (.error err, w)
  | none =>
    (.ok { view := db.kv },
      { w with snapshots := w.snapshots + 1, trace := w.trace ++ [Event.getSnapshot] })

/-- Source: `snapshot.Release()`. -/
def leveldb.Snapshot.Release (_s : leveldb.Snapshot) (w : World) : World :=
  { w with snapshots := w.snapshots - 1, trace := w.trace ++ [Event.snapshotRelease] }

/-- Source: goleveldb `iterator.Iterator`: the pairs `Next()` yields before it
returns false, and what `Error()` reports after that (`none` when the iterator
was exhausted). -/
structure iterator.Iterator where
  pairs : KV
  err : Option Error
deriving DecidableEq, Repr

/-- The pairs an iterator over `view` yields: all of them, or with a read
failing after `n` pairs only the first `n`. -/
def iterPairs (fault : Option (Nat × Error)) (view : KV) : KV :=
  match fault with
  | none => view
  | some (n, _) => view.take n

/-- Source: `snapshot.NewIterator(nil, nil)`.  `fault` is a read failure the
iterator meets after yielding that many pairs. -/
def leveldb.Snapshot.NewIterator (fault : Option (Nat × Error)) (s : leveldb.Snapshot)
    (w : World) : iterator.Iterator × World :=
  ({ pairs := iterPairs fault s.view, err := fault.map Prod.snd },
   { w with iters := w.iters + 1, trace := w.trace ++ [Event.newIterator] })

/-- Source: `iter.Release()`. -/
def iterator.Release (w : World) : World :=
  { w with iters := w.iters - 1, trace := w.trace ++ [Event.iterRelease] }

/-! ## FSM -/

/-- Source: `type FSM struct { cfg *config.DB; *leveldb.DB }`. -/
structure FSM where
  cfg : config.DB
  DB : leveldb.DB
deriving DecidableEq, Repr

/-- Failures `NewFSM` can meet. -/
structure NewFSMFaults where
  tempDir : Option Error
  openFile : Option Error

/-- Source: `NewFSM`. -/
def NewFSM (env : Env) (flt : NewFSMFaults) (cfg : config.DB) (w : World) :
    Except Error FSM × World :=
  match ioutil.TempDir flt.tempDir cfg.Dir w with
  | (.error err, w1) => (.error err, w1)
  | (.ok tmpPath, w1) =>
    match leveldb.OpenFile env flt.openFile tmpPath w1 with
    | (.error err, w2) => (.error err, w2)
    | (.ok db, w2) => (.ok { cfg := cfg, DB := db }, w2)

/-- Source: `FSM.write`. -/
def FSM.write (env : Env) (putFault : Option Error) (f : FSM) (cmd : Bytes) (w : World) :
    Option Error × FSM × World :=
  match env.Unmarshal cmd with
  | .error err => (some err, f, w)
  | .ok req =>
    if req.Action ≠ env.Write then
      (some errBadMethod, f, w)
    else
      match leveldb.DB.Put env putFault f.DB req.Key req.Data w with
      | (r, db, w1) => (r, { f with DB := db }, w1)

/-- Source: `FSM.Apply`. -/
def FSM.Apply (env : Env) (putFault : Option Error) (f : FSM) (l : raft.Log) (w : World) :
    Option Error × FSM × World :=
  FSM.write env putFault f l.Data w

/-- Source: `f.Get(key, nil)`, promoted from the embedded `*leveldb.DB`. -/
def FSM.Get (f : FSM) (key : Bytes) : Option Bytes :=
  leveldb.DB.Get f.DB key

/-- A run of `Apply` calls in log order, each with the outcome of its `Put`;
yields the result of every call. -/
def applyAll (env : Env) (f : FSM) (w : World) :
    List (raft.Log × Option Error) → List (Option Error) × FSM × World
  | [] => ([], f, w)
  | (l, fault) :: rest =>
    match FSM.Apply env fault f l w with
    | (r, f1, w1) =>
      match applyAll env f1 w1 rest with
      | (rs, f2, w2) => (r :: rs, f2, w2)

/-- The value of the last write to `key` in a sequence of writes. -/
def lastWrite (key : Bytes) : List (Bytes × Bytes) → Option Bytes
  | [] => none
  | (k, v) :: rest =>
    match lastWrite key rest with
    | some v1 => some v1
    | none => if k = key then some v else none

/-! ## Snapshot producer -/

/-- Source: `type fsmSnapshot struct { snapshot *leveldb.Snapshot }`. -/
structure fsmSnapshot where
  snapshot : leveldb.Snapshot
deriving DecidableEq, Repr

/-- Source: `FSM.Snapshot`. -/
def FSM.Snapshot (fault : Option Error) (f : FSM) (w : World) :
    Except Error fsmSnapshot × World :=
  match leveldb.DB.GetSnapshot fault f.DB w with
  | (.error err, w1) => (.error err, w1)
  | (.ok snapshot, w1) => (.ok { snapshot := snapshot }, w1)

/-- Failures `Persist` can meet: of `ioutil.TempDir`, of `leveldb.OpenFile`, of
the iterator reading the view (after how many pairs, and the error), of the
successive `db.Put` calls (a missing entry is a success), of `Tar`, and of the
gzip writer's `Close`. -/
structure PersistFaults where
  tempDir : Option Error
  openFile : Option Error
  iter : Option (Nat × Error)
  put : List (Option Error)
  tar : Option Error
  gzipClose : Option Error
deriving DecidableEq, Repr

/-- Source: the loop `for iter.Next() { err = db.Put(iter.Key(), iter.Value(), nil) ... }`
of `Persist`, up to its first failing `Put`, over the pairs the iterator yields
before `Next()` is false.  The loop does not read `iter.Error()`. -/
def copyLoop (env : Env) :
    List (Option Error) → leveldb.DB → KV → World → Option Error × leveldb.DB × World
  | _, db, [], w => (none, db, w)
  | faults, db, (key, value) :: rest, w =>
    match leveldb.DB.Put env faults.head?.join db key value w with
    | (some err, db1, w1) => (some err, db1, w1)
    | (none, db1, w1) => copyLoop env faults.tail db1 rest w1

/-- Source: `Tar(dir, w)`: feeds the archive of the directory tree to the gzip
writer `w`; the result is what the writer has been fed. -/
def Tar (env : Env) (fault : Option Error) (p : Path) (w : World) :
    Except Error Bytes × World :=
  match fault with
  | some err => (.error err, w)
  | none =>
    match w.readDir p with
    | none => (.error Error.notExist, w)
    | some files => (.ok (env.Tar files), w.log (Event.tar p))

/-- Source: `w.Close()` on the gzip writer over `sink`, which was fed `fed`:
the compressed stream reaches the sink. -/
def gzip.Writer.Close (env : Env) (fault : Option Error) (sink : Nat) (fed : Bytes)
    (w : World) : Option Error × World :=
  match fault with
  | some err => (some err, w)
  | none =>
    (none, (w.log (Event.sinkWrite sink (env.gzipWrite fed))).log (Event.gzipClose sink))

/-- Source: the body of `fsmSnapshot.Persist` after `defer os.RemoveAll(tmpPath)`. -/
def persistBody (env : Env) (flt : PersistFaults) (f : fsmSnapshot) (sink : Nat)
    (tmpPath : Path) (w1 : World) : Option Error × World :=
  match leveldb.OpenFile env flt.openFile tmpPath w1 with
  | (.error err, w2) => (some err, w2)
  | (.ok db, w2) =>
    let it := leveldb.Snapshot.NewIterator flt.iter f.snapshot w2
    match copyLoop env flt.put db it.1.pairs it.2 with
    | (some err, db1, w4) =>
      (some err, (leveldb.DB.Close db1 w4).log (Event.sinkCancel sink))
    | (none, db1, w4) =>
      let w5 := leveldb.DB.Close db1 (iterator.Release w4)
      match Tar env flt.tar tmpPath w5 with
      | (.error err, w6) => (some err, w6.log (Event.sinkCancel sink))
      | (.ok fed, w6) =>
        match gzip.Writer.Close env flt.gzipClose sink fed w6 with
        | (some err, w7) => (some err, w7.log (Event.sinkCancel sink))
        | (none, w7) => (none, w7.log (Event.sinkClose sink))

/-- Source: `fsmSnapshot.Persist`. -/
def fsmSnapshot.Persist (env : Env) (flt : PersistFaults) (f : fsmSnapshot) (sink : Nat)
    (w : World) : Option Error × World :=
  match ioutil.TempDir flt.tempDir env.osTempDir w with
  | (.error err, w1) => (some err, w1)
  | (.ok tmpPath, w1) =>
    match persistBody env flt f sink tmpPath w1 with
    | (r, w2) => (r, os.RemoveAll tmpPath w2)

/-- Source: `fsmSnapshot.Release`. -/
def fsmSnapshot.Release (f : fsmSnapshot) (w : World) : World :=
  leveldb.Snapshot.Release f.snapshot w

/-- Everything written to `sink`, in order. -/
def sinkContents (sink : Nat) : List Event → Bytes
  | [] => []
  | Event.sinkWrite s b :: rest =>
    if s = sink then b ++ sinkContents sink rest else sinkContents sink rest
  | _ :: rest => sinkContents sink rest

/-! ## Snapshot installer -/

/-- Failures `Restore` can meet that do not depend on the stream. -/
structure RestoreFaults where
  tempDir : Option Error
  openFile : Option Error
deriving DecidableEq, Repr

/-- Source: `Untar(tmpPath, tar.NewReader(zr))`: unpacks into the directory and
reports the first error met; the files unpacked before the error stay. -/
def Untar (env : Env) (p : Path) (zr : Bytes) (w : World) : Option Error × World :=
  match env.Untar zr with
  | (files, err) => (err, (w.writeDir p files).log (Event.untar p))

/-- Source: the body of `FSM.Restore` after `defer r.Close()`. -/
def restoreBody (env : Env) (flt : RestoreFaults) (f : FSM) (r : Bytes) (w : World) :
    Option Error × FSM × World :=
  match env.gzipNewReader r with
  | .error err => (some err, f, w)
  | .ok zr =>
    match ioutil.TempDir flt.tempDir f.cfg.Dir w with
    | (.error err, w1) => (some err, f, w1)
    | (.ok tmpPath, w1) =>
      match Untar env tmpPath zr w1 with
      | (some err, w2) => (some err, f, w2)
      | (none, w2) =>
        match leveldb.OpenFile env flt.openFile tmpPath w2 with
        | (.error err, w3) => (some err, f, w3)
        | (.ok db, w3) => (none, { f with DB := db }, w3)

/-- Source: `FSM.Restore`. -/
def FSM.Restore (env : Env) (flt : RestoreFaults) (f : FSM) (r : Bytes) (w : World) :
    Option Error × FSM × World :=
  match restoreBody env flt f r w with
  | (res, f1, w1) => (res, f1, w1.log Event.readerClose)

/-! ## A reference environment

A small concrete decoder, engine layout and archive codec, used to run the
definitions on concrete inputs. -/

/-- Reference command encoding: `action :: keyLen :: key ++ data`. -/
def refUnmarshal : Bytes → Except Error proto.Request
  | a :: n :: rest =>
    if n ≤ rest.length then .ok { Action := a, Key := rest.take n, Data := rest.drop n }
    else .error (Error.ext 1)
  | _ => .error (Error.ext 1)

/-- Reference archive: each file as `nameLen :: name ++ (dataLen :: data)`. -/
def refTar : Files → Bytes
  | [] => []
  | (n, c) :: rest => n.length :: (n ++ c.length :: (c ++ refTar rest))

/-- Reference unpacking, bounded by the length of the stream. -/
def refUntarAux : Nat → Bytes → Files × Option Error
  | _, [] => ([], none)
  | 0, _ :: _ => ([], some (Error.ext 3))
  | fuel + 1, n :: rest =>
    if n ≤ rest.length then
      match rest.drop n with
      | [] => ([], some (Error.ext 3))
      | m :: rest2 =>
        if m ≤ rest2.length then
          match refUntarAux fuel (rest2.drop m) with
          | (fs, e) => ((rest.take n, rest2.take m) :: fs, e)
        else ([], some (Error.ext 3))
    else ([], some (Error.ext 3))

/-- Reference unpacking. -/
def refUntar (b : Bytes) : Files × Option Error :=
  refUntarAux b.length b

/-- Reference gzip header check. -/
def refGzipNewReader : Bytes → Except Error Bytes
  | 31 :: 139 :: rest => .ok rest
  | _ => .error (Error.ext 2)

/-- The reference environment: `proto.Write = 1`, one file per key. -/
def refEnv : Env :=
  { Write := 1
    Unmarshal := refUnmarshal
    osTempDir := "/tmp"
    dbFiles := fun kv => kv
    recover := fun files => .ok files
    Tar := refTar
    Untar := refUntar
    gzipWrite := fun b => 31 :: 139 :: b
    gzipNewReader := refGzipNewReader }

/-- A world with nothing in it. -/
def emptyWorld : World :=
  { dirs := [], openDBs := [], nextDB := 0, snapshots := 0, iters := 0, trace := [] }

/-- The world right after `NewFSM` on `emptyWorld` under `refEnv`. -/
def refWorld : World :=
  { dirs := [({ root := "/data", name := 1 }, [])], openDBs := [0], nextDB := 1,
    snapshots := 0, iters := 0,
    trace := [Event.tempDir { root := "/data", name := 1 },
              Event.openFile { root := "/data", name := 1 } 0] }

/-- The state machine right after `NewFSM` on `emptyWorld` under `refEnv`. -/
def refFSM : FSM :=
  { cfg := { Dir := "/data" }, DB := { id := 0, path := { root := "/data", name := 1 }, kv := [] } }

/-- Reference encoding of `Write(key, value)`. -/
def refWriteCmd (key value : Bytes) : Bytes :=
  1 :: key.length :: (key ++ value)

/-! ## Specification helpers -/

/-- The first failure among the first `n` outcomes of `db.Put`. -/
def firstPutFault : List (Option Error) → Nat → Option Error
  | _, 0 => none
  | faults, n + 1 =>
    match faults.head?.join with
    | some err => some err
    | none => firstPutFault faults.tail n

/-- The contents an engine holding `kv` has after every pair of `view` was put
into it, in order. -/
def copyKV (kv : KV) (view : KV) : KV :=
  view.foldl (fun acc e => KV.put acc e.1 e.2) kv

/-- The first failure `Persist` checks for once its scratch engine is open, the
iterator yielding `n` pairs: a failing `Put`, else a failing `Tar`, else a
failing close of the gzip writer. -/
def PersistFaults.ioFault (flt : PersistFaults) (n : Nat) : Option Error :=
  match firstPutFault flt.put n with
  | some err => some err
  | none =>
    match flt.tar with
    | some err => some err
    | none => flt.gzipClose

/-- The cycle the consensus engine drives: `Snapshot`, then `Persist` on the
handle it got, then `Release` of the handle whatever `Persist` returned. -/
def snapshotCycle (env : Env) (snapFault : Option Error) (flt : PersistFaults) (f : FSM)
    (sink : Nat) (w : World) : Option Error × World :=
  match FSM.Snapshot snapFault f w with
  | (.error err, w1) => (some err, w1)
  | (.ok snap, w1) =>
    match fsmSnapshot.Persist env flt snap sink w1 with
    | (r, w2) => (r, fsmSnapshot.Release snap w2)

/-- No failure at all during `Persist`. -/
def noFaults : PersistFaults :=
  { tempDir := none, openFile := none, iter := none, put := [], tar := none,
    gzipClose := none }

/-- The first `db.Put` of the copy loop fails. -/
def firstPutFails : PersistFaults :=
  { tempDir := none, openFile := none, iter := none, put := [some (Error.ext 9)],
    tar := none, gzipClose := none }

/-- The iterator over the view meets a read failure after its first pair; every
call `Persist` checks succeeds. -/
def iterFails : PersistFaults :=
  { tempDir := none, openFile := none, iter := some (1, Error.ext 5), put := [],
    tar := none, gzipClose := none }

/-- The commands `Write(a, 1)`, `Write(b, 2)` as log entries whose `Put` succeeds. -/
def refRun2 : List (raft.Log × Option Error) :=
  [({ Index := 1, Term := 1, Data := refWriteCmd [97] [49] }, none),
   ({ Index := 2, Term := 1, Data := refWriteCmd [98] [50] }, none)]

/-- The reference state machine after `refRun2`: it holds `a = 1`, `b = 2`. -/
def refFSM2 : FSM :=
  (applyAll refEnv refFSM refWorld refRun2).2.1

/-- The world after `refRun2`. -/
def refWorld2 : World :=
  (applyAll refEnv refFSM refWorld refRun2).2.2

/-- A snapshot handle on the contents `a = 1`, `b = 2`. -/
def refSnap : fsmSnapshot :=
  { snapshot := { view := [([98], [50]), ([97], [49])] } }

/-- An archive with a valid gzip header whose tar stream breaks off after its
first file. -/
def corruptArchive : Bytes :=
  31 :: 139 :: (refTar [([1], [2])] ++ [9])

/-- No failure of the operating system during `Restore`. -/
def noRestoreFaults : RestoreFaults :=
  { tempDir := none, openFile := none }

/-- The command `Write(a, 3)` as a log entry whose `Put` succeeds. -/
def refRun3 : List (raft.Log × Option Error) :=
  [({ Index := 3, Term := 1, Data := refWriteCmd [97] [51] }, none)]

/-- The world after `Snapshot` on `refFSM2`. -/
def refWorldSnap : World :=
  (FSM.Snapshot none refFSM2 refWorld2).2

/-- The world after `Persist` of `refSnap` to sink 7. -/
def refWorldPersist : World :=
  (fsmSnapshot.Persist refEnv noFaults refSnap 7 refWorldSnap).2

/-- The archive sink 7 received. -/
def refArchive : Bytes :=
  sinkContents 7 (refWorldPersist.trace.drop refWorldSnap.trace.length)

/-- The original state machine after the later `Write(a, 3)`. -/
def refFSM3 : FSM :=
  (applyAll refEnv refFSM2 refWorldPersist refRun3).2.1

/-- The world after the later `Write(a, 3)`. -/
def refWorld3 : World :=
  (applyAll refEnv refFSM2 refWorldPersist refRun3).2.2

/-- A state machine newly made by `NewFSM` on another node directory. -/
def freshFSM : FSM :=
  { cfg := { Dir := "/node2" }, DB := { id := 2, path := { root := "/node2", name := 2 }, kv := [] } }

/-- The world after `NewFSM` made `freshFSM`. -/
def freshWorld : World :=
  (NewFSM refEnv { tempDir := none, openFile := none } { Dir := "/node2" } refWorld3).2

/-- The writes `a = 1`, `b = 2`, `a = 3`. -/
def refCmds : List (Bytes × Bytes) :=
  [([97], [49]), ([98], [50]), ([97], [51])]

/-! ## Lemmas -/

theorem find_filter_ne (kv : KV) (k key : Bytes) (h : ¬ k = key) :
    (kv.filter (fun e => e.1 ≠ k)).find? (fun e => e.1 = key)
      = kv.find? (fun e => e.1 = key) := by
  induction kv with
  | nil => rfl
  | cons e rest ih =>
    by_cases he : e.1 = k
    · have hne : ¬ e.1 = key := fun h1 => h (he ▸ h1)
      rw [List.filter_cons_of_neg (by simpa using he),
        List.find?_cons_of_neg _ (by simpa using hne), ih]
    · rw [List.filter_cons_of_pos (by simpa using he)]
      by_cases hk : e.1 = key
      · rw [List.find?_cons_of_pos _ (by simpa using hk),
          List.find?_cons_of_pos _ (by simpa using hk)]
      · rw [List.find?_cons_of_neg _ (by simpa using hk),
          List.find?_cons_of_neg _ (by simpa using hk), ih]

theorem KV.get_put (kv : KV) (k v key : Bytes) :
    KV.get (KV.put kv k v) key = if k = key then some v else KV.get kv key := by
  unfold KV.get KV.put
  by_cases h : k = key
  · simp [h]
  · rw [if_neg h, List.find?_cons_of_neg _ (by simpa using h), find_filter_ne kv k key h]

theorem refFSM_eq :
    NewFSM refEnv { tempDir := none, openFile := none } { Dir := "/data" } emptyWorld
      = (.ok refFSM, refWorld) := by
  rfl

theorem write_ok (env : Env) (f : FSM) (cmd key value : Bytes) (w : World)
    (fault : Option Error)
    (hdec : env.Unmarshal cmd = .ok { Action := env.Write, Key := key, Data := value }) :
    FSM.write env fault f cmd w
      = ((leveldb.DB.Put env fault f.DB key value w).1,
         { f with DB := (leveldb.DB.Put env fault f.DB key value w).2.1 },
         (leveldb.DB.Put env fault f.DB key value w).2.2) := by
  simp [FSM.write, hdec]

theorem Put_result (env : Env) (fault : Option Error) (db : leveldb.DB) (key value : Bytes)
    (w : World) : (leveldb.DB.Put env fault db key value w).1 = fault := by
  cases fault <;> rfl

theorem applyAll_get (env : Env) (run : List (raft.Log × Option Error)) :
    ∀ (cmds : List (Bytes × Bytes)) (f : FSM) (w : World),
    List.Forall₂ (fun lf c => env.Unmarshal lf.1.Data
        = .ok { Action := env.Write, Key := c.1, Data := c.2 }) run cmds →
    (∀ r ∈ (applyAll env f w run).1, r = none) →
    ∀ key, FSM.Get (applyAll env f w run).2.1 key
      = (match lastWrite key cmds with
         | some v => some v
         | none => FSM.Get f key) := by
  induction run with
  | nil =>
    intro cmds f w hdec _ key
    cases hdec
    rfl
  | cons lf rest ih =>
    intro cmds f w hdec hok key
    cases hdec with
    | cons hd htl =>
      rename_i c cs
      obtain ⟨l, fault⟩ := lf
      obtain ⟨k, v⟩ := c
      have hw := write_ok env f l.Data k v w fault hd
      have hfault : fault = none := by
        have := hok (FSM.Apply env fault f l w).1 (by simp [applyAll])
        rw [FSM.Apply, hw, Put_result] at this
        exact this
      subst hfault
      have hstep : applyAll env f w ((l, none) :: rest)
          = (none :: (applyAll env (FSM.Apply env none f l w).2.1
                (FSM.Apply env none f l w).2.2 rest).1,
             (applyAll env (FSM.Apply env none f l w).2.1
                (FSM.Apply env none f l w).2.2 rest).2) := by
        simp [applyAll, FSM.Apply, hw, leveldb.DB.Put]
      have hok1 : ∀ r ∈ (applyAll env (FSM.Apply env none f l w).2.1
          (FSM.Apply env none f l w).2.2 rest).1, r = none := by
        intro r hr
        apply hok
        rw [hstep]
        exact List.mem_cons_of_mem _ hr
      have h1 := ih cs _ _ htl hok1 key
      rw [hstep]
      simp only [lastWrite]
      rw [h1]
      cases hl : lastWrite key cs with
      | some v1 => rfl
      | none =>
        simp only [FSM.Apply, hw, leveldb.DB.Put, FSM.Get, leveldb.DB.Get, KV.get_put]
        by_cases hk : k = key <;> simp [hk]

theorem lastWrite_none_iff (key : Bytes) (cmds : List (Bytes × Bytes)) :
    lastWrite key cmds = none ↔ key ∉ cmds.map Prod.fst := by
  induction cmds with
  | nil => simp [lastWrite]
  | cons c cs ih =>
    obtain ⟨k, v⟩ := c
    simp only [lastWrite, List.map_cons, List.mem_cons, not_or]
    cases hl : lastWrite key cs with
    | some v1 =>
      have hin : key ∈ cs.map Prod.fst := by
        by_contra h
        simp [ih.mpr h] at hl
      constructor
      · intro h
        cases h
      · intro h
        exact absurd hin h.2
    | none =>
      have h1 := ih.mp hl
      by_cases hk : k = key
      · simp [hk]
      · have hk2 : ¬ key = k := fun h => hk h.symm
        simp [hk, hk2, h1]

theorem KV.put_nodup (kv : KV) (k v : Bytes) (h : (kv.map Prod.fst).Nodup) :
    ((KV.put kv k v).map Prod.fst).Nodup := by
  unfold KV.put
  rw [List.map_cons, List.nodup_cons]
  constructor
  · intro hmem
    obtain ⟨e, he, hk⟩ := List.mem_map.mp hmem
    have := (List.mem_filter.mp he).2
    simp at this
    exact this hk
  · exact List.Nodup.sublist (List.Sublist.map Prod.fst (List.filter_sublist kv)) h

theorem write_nodup (env : Env) (fault : Option Error) (f : FSM) (cmd : Bytes) (w : World)
    (h : (f.DB.kv.map Prod.fst).Nodup) :
    ((FSM.write env fault f cmd w).2.1.DB.kv.map Prod.fst).Nodup := by
  unfold FSM.write
  cases env.Unmarshal cmd with
  | error e => exact h
  | ok req =>
    by_cases ha : req.Action = env.Write
    · cases fault with
      | some e => simpa [ha, leveldb.DB.Put] using h
      | none => simpa [ha, leveldb.DB.Put] using KV.put_nodup f.DB.kv req.Key req.Data h
    · simpa [ha] using h

/-! ## Apply -/

/-- C1: a payload that fails to decode makes `Apply` return the decode error,
and a payload that decodes to a command whose Action is not Write makes it
return `errBadMethod`; in both cases the state machine and the world come back
unchanged (no `Put` happened), so `Get` answers as before on every key. -/
theorem Apply_rejects_without_mutation (env : Env) (putFault : Option Error) (f : FSM)
    (l : raft.Log) (w : World) :
    (∀ err, env.Unmarshal l.Data = .error err →
      FSM.Apply env putFault f l w = (some err, f, w)) ∧
    (∀ req, env.Unmarshal l.Data = .ok req → req.Action ≠ env.Write →
      FSM.Apply env putFault f l w = (some errBadMethod, f, w)) ∧
    ((∀ req, env.Unmarshal l.Data = .ok req → req.Action ≠ env.Write) →
      (FSM.Apply env putFault f l w).1 ≠ none ∧
      (FSM.Apply env putFault f l w).2.2.trace = w.trace ∧
      ∀ key, FSM.Get (FSM.Apply env putFault f l w).2.1 key = FSM.Get f key) := by
  refine ⟨?_, ?_, ?_⟩
  · intro err h
    simp [FSM.Apply, FSM.write, h]
  · intro req h hne
    simp [FSM.Apply, FSM.write, h, hne]
  · intro h
    cases hd : env.Unmarshal l.Data with
    | error err => simp [FSM.Apply, FSM.write, hd]
    | ok req => simp [FSM.Apply, FSM.write, hd, h req hd]

/-- Witness for C1: under the reference environment, a payload with Action 7 is
rejected with `errBadMethod` and a payload too short to decode with the decode
error; the state machine and the world are untouched. -/
theorem Apply_rejects_without_mutation_witness :
    FSM.Apply refEnv none refFSM { Index := 1, Term := 1, Data := [] } refWorld
      = (some (Error.ext 1), refFSM, refWorld) ∧
    FSM.Apply refEnv none refFSM { Index := 1, Term := 1, Data := [7, 1, 97, 49] } refWorld
      = (some errBadMethod, refFSM, refWorld) :=
  ⟨(Apply_rejects_without_mutation refEnv none refFSM
      { Index := 1, Term := 1, Data := [] } refWorld).1 (Error.ext 1) rfl,
   (Apply_rejects_without_mutation refEnv none refFSM
      { Index := 1, Term := 1, Data := [7, 1, 97, 49] } refWorld).2.1
      { Action := 7, Key := [97], Data := [49] } rfl (by decide)⟩

/-- C2: after a run of Write commands applied in order through `Apply`, every
`Put` succeeding, `Get` on a key written in the run returns the value of the
last write to it, and `Get` on a key not written returns what it returned
before the run. -/
theorem Apply_last_write_wins (env : Env) (f : FSM) (w : World)
    (run : List (raft.Log × Option Error)) (cmds : List (Bytes × Bytes))
    (hdec : List.Forall₂ (fun lf c => env.Unmarshal lf.1.Data
        = .ok { Action := env.Write, Key := c.1, Data := c.2 }) run cmds)
    (hok : ∀ r ∈ (applyAll env f w run).1, r = none) :
    (∀ key, key ∈ cmds.map Prod.fst →
      ∃ v, lastWrite key cmds = some v ∧ FSM.Get (applyAll env f w run).2.1 key = some v) ∧
    (∀ key, key ∉ cmds.map Prod.fst →
      FSM.Get (applyAll env f w run).2.1 key = FSM.Get f key) := by
  refine ⟨?_, ?_⟩
  · intro key hmem
    have h := applyAll_get env run cmds f w hdec hok key
    cases hl : lastWrite key cmds with
    | none => exact absurd hmem ((lastWrite_none_iff key cmds).mp hl)
    | some v =>
      rw [hl] at h
      exact ⟨v, rfl, h⟩
  · intro key hmem
    have h := applyAll_get env run cmds f w hdec hok key
    rw [(lastWrite_none_iff key cmds).mpr hmem] at h
    exact h

/-- Witness for C2: after `Write(a, 1)`, `Write(b, 2)`, `Write(a, 3)` on the
reference state machine, `Get(a)` is `3`, `Get(b)` is `2`, and `Get(c)` is what
it was. -/
theorem Apply_last_write_wins_witness :
    FSM.Get (applyAll refEnv refFSM refWorld (refRun2 ++ refRun3)).2.1 [97] = some [51] ∧
    FSM.Get (applyAll refEnv refFSM refWorld (refRun2 ++ refRun3)).2.1 [98] = some [50] ∧
    FSM.Get (applyAll refEnv refFSM refWorld (refRun2 ++ refRun3)).2.1 [99]
      = FSM.Get refFSM [99] := by
  have h := Apply_last_write_wins refEnv refFSM refWorld (refRun2 ++ refRun3) refCmds
    (List.Forall₂.cons rfl (List.Forall₂.cons rfl (List.Forall₂.cons rfl List.Forall₂.nil)))
    (by decide)
  refine ⟨?_, ?_, h.2 [99] (by decide)⟩
  · obtain ⟨v, hv, hg⟩ := h.1 [97] (by decide)
    have h51 : lastWrite [97] refCmds = some [51] := by decide
    rw [h51] at hv
    cases hv
    exact hg
  · obtain ⟨v, hv, hg⟩ := h.1 [98] (by decide)
    have h50 : lastWrite [98] refCmds = some [50] := by decide
    rw [h50] at hv
    cases hv
    exact hg

/-! ## Persist -/

theorem writeDir_filter (w : World) (p : Path) (files : Files) :
    (w.writeDir p files).dirs.filter (fun d => d.1 ≠ p) = w.dirs.filter (fun d => d.1 ≠ p) := by
  unfold World.writeDir
  simp only
  induction w.dirs with
  | nil => rfl
  | cons d rest ih =>
    simp only [List.map_cons, List.filter_cons]
    rw [ih]
    by_cases h : d.1 = p <;> simp [h]

theorem find_update (p : Path) (files : Files) : ∀ (dirs : List (Path × Files)),
    ((dirs.find? (fun d => d.1 = p)).map (fun d => d.2)).isSome →
    ((dirs.map (fun d => if d.1 = p then (p, files) else d)).find?
      (fun d => d.1 = p)).map (fun d => d.2) = some files := by
  intro dirs
  induction dirs with
  | nil => intro h; simp at h
  | cons d rest ih =>
    intro h
    simp only [List.map_cons, List.find?_cons] at h ⊢
    by_cases hd : d.1 = p
    · simp [hd]
    · simp only [hd, decide_False, if_false] at h ⊢
      exact ih h

theorem writeDir_readDir (w : World) (p : Path) (files : Files)
    (h : (w.readDir p).isSome) : (w.writeDir p files).readDir p = some files :=
  find_update p files w.dirs h

theorem copyLoop_frame (env : Env) : ∀ (view : KV) (faults : List (Option Error))
    (db : leveldb.DB) (w : World),
    ∃ puts : List Event,
      (copyLoop env faults db view w).2.2.trace = w.trace ++ puts ∧
      (∀ e ∈ puts, ∃ k v, e = Event.dbPut db.id k v) ∧
      (copyLoop env faults db view w).2.1.id = db.id ∧
      (copyLoop env faults db view w).2.1.path = db.path ∧
      (copyLoop env faults db view w).2.2.openDBs = w.openDBs ∧
      (copyLoop env faults db view w).2.2.nextDB = w.nextDB ∧
      (copyLoop env faults db view w).2.2.snapshots = w.snapshots ∧
      (copyLoop env faults db view w).2.2.iters = w.iters ∧
      (copyLoop env faults db view w).2.2.dirs.filter (fun d => d.1 ≠ db.path)
        = w.dirs.filter (fun d => d.1 ≠ db.path) := by
  intro view
  induction view with
  | nil =>
    intro faults db w
    exact ⟨[], by simp [copyLoop]⟩
  | cons e rest ih =>
    intro faults db w
    obtain ⟨k, v⟩ := e
    have hstep : ∀ ft : List (Option Error),
        ∃ puts : List Event,
        (copyLoop env ft { db with kv := KV.put db.kv k v } rest
          ((w.writeDir db.path (env.dbFiles (KV.put db.kv k v))).log
            (Event.dbPut db.id k v))).2.2.trace = w.trace ++ puts ∧
        (∀ e ∈ puts, ∃ k v, e = Event.dbPut db.id k v) ∧
        (copyLoop env ft { db with kv := KV.put db.kv k v } rest
          ((w.writeDir db.path (env.dbFiles (KV.put db.kv k v))).log
            (Event.dbPut db.id k v))).2.1.id = db.id ∧
        (copyLoop env ft { db with kv := KV.put db.kv k v } rest
          ((w.writeDir db.path (env.dbFiles (KV.put db.kv k v))).log
            (Event.dbPut db.id k v))).2.1.path = db.path ∧
        (copyLoop env ft { db with kv := KV.put db.kv k v } rest
          ((w.writeDir db.path (env.dbFiles (KV.put db.kv k v))).log
            (Event.dbPut db.id k v))).2.2.openDBs = w.openDBs ∧
        (copyLoop env ft { db with kv := KV.put db.kv k v } rest
          ((w.writeDir db.path (env.dbFiles (KV.put db.kv k v))).log
            (Event.dbPut db.id k v))).2.2.nextDB = w.nextDB ∧
        (copyLoop env ft { db with kv := KV.put db.kv k v } rest
          ((w.writeDir db.path (env.dbFiles (KV.put db.kv k v))).log
            (Event.dbPut db.id k v))).2.2.snapshots = w.snapshots ∧
        (copyLoop env ft { db with kv := KV.put db.kv k v } rest
          ((w.writeDir db.path (env.dbFiles (KV.put db.kv k v))).log
            (Event.dbPut db.id k v))).2.2.iters = w.iters ∧
        (copyLoop env ft { db with kv := KV.put db.kv k v } rest
          ((w.writeDir db.path (env.dbFiles (KV.put db.kv k v))).log
            (Event.dbPut db.id k v))).2.2.dirs.filter (fun d => d.1 ≠ db.path)
          = w.dirs.filter (fun d => d.1 ≠ db.path) := by
      intro ft
      obtain ⟨puts, h1, h2, h3, h4, h5, h6, h7, h8, h9⟩ := ih ft
        { db with kv := KV.put db.kv k v }
        ((w.writeDir db.path (env.dbFiles (KV.put db.kv k v))).log (Event.dbPut db.id k v))
      refine ⟨Event.dbPut db.id k v :: puts, ?_, ?_, h3, h4, h5, h6, h7, h8, ?_⟩
      · rw [h1]; simp [World.log, World.writeDir]
      · intro e he
        rcases List.mem_cons.mp he with rfl | he
        · exact ⟨k, v, rfl⟩
        · exact h2 e he
      · rw [h9]
        exact writeDir_filter w db.path _
    rcases faults with _ | ⟨_ | err, ft⟩
    · simpa [copyLoop, leveldb.DB.Put] using hstep []
    · simpa [copyLoop, leveldb.DB.Put] using hstep ft
    · exact ⟨[], by simp [copyLoop, leveldb.DB.Put]⟩

theorem copyLoop_result (env : Env) : ∀ (view : KV) (faults : List (Option Error))
    (db : leveldb.DB) (w : World),
    (copyLoop env faults db view w).1 = firstPutFault faults view.length := by
  intro view
  induction view with
  | nil => intro faults db w; rfl
  | cons e rest ih =>
    intro faults db w
    obtain ⟨k, v⟩ := e
    rcases faults with _ | ⟨_ | err, ft⟩
    · simpa [copyLoop, leveldb.DB.Put, firstPutFault] using ih [] _ _
    · simpa [copyLoop, leveldb.DB.Put, firstPutFault] using ih ft _ _
    · simp [copyLoop, leveldb.DB.Put, firstPutFault]

theorem copyLoop_kv (env : Env) : ∀ (view : KV) (faults : List (Option Error))
    (db : leveldb.DB) (w : World),
    (copyLoop env faults db view w).1 = none →
    (w.readDir db.path = some (env.dbFiles db.kv)) →
    (copyLoop env faults db view w).2.1.kv = copyKV db.kv view ∧
    (copyLoop env faults db view w).2.2.readDir db.path
      = some (env.dbFiles (copyLoop env faults db view w).2.1.kv) := by
  intro view
  induction view with
  | nil => intro faults db w _ hd; exact ⟨rfl, hd⟩
  | cons e rest ih =>
    intro faults db w hr hd
    obtain ⟨k, v⟩ := e
    have hdir : ((w.writeDir db.path (env.dbFiles (KV.put db.kv k v))).log
        (Event.dbPut db.id k v)).readDir db.path = some (env.dbFiles (KV.put db.kv k v)) := by
      have h := writeDir_readDir w db.path (env.dbFiles (KV.put db.kv k v)) (by simp [hd])
      simpa [World.log, World.readDir] using h
    rcases faults with _ | ⟨_ | err, ft⟩
    · simp only [copyLoop, leveldb.DB.Put, List.head?_nil, Option.join, List.tail_nil] at hr ⊢
      exact ih [] { db with kv := KV.put db.kv k v } _ hr hdir
    · simp only [copyLoop, leveldb.DB.Put, List.head?_cons, Option.join, List.tail_cons] at hr ⊢
      exact ih ft { db with kv := KV.put db.kv k v } _ hr hdir
    · simp [copyLoop, leveldb.DB.Put] at hr

theorem name_le_max (dirs : List (Path × Files)) :
    ∀ d ∈ dirs, d.1.name ≤ (dirs.map (fun d => d.1.name)).foldr max 0 := by
  induction dirs with
  | nil => intro d h; cases h
  | cons e rest ih =>
    intro d h
    simp only [List.map_cons, List.foldr_cons]
    rcases List.mem_cons.mp h with rfl | h
    · exact le_max_left _ _
    · exact le_trans (ih d h) (le_max_right _ _)

theorem filter_fresh (root : String) (dirs : List (Path × Files)) :
    dirs.filter (fun d => d.1 ≠ { root := root, name := freshName dirs }) = dirs := by
  rw [List.filter_eq_self]
  intro d hd
  have h := name_le_max dirs d hd
  have hne : d.1 ≠ { root := root, name := freshName dirs } := by
    intro heq
    have : d.1.name = freshName dirs := by rw [heq]
    unfold freshName at this
    omega
  simpa using hne

theorem persistBody_spec (env : Env) (flt : PersistFaults) (f : fsmSnapshot) (sink : Nat)
    (p : Path) (w1 : World) (hp : w1.readDir p = some []) :
    ∃ puts : List Event,
      (∀ e ∈ puts, ∃ k v, e = Event.dbPut w1.nextDB k v) ∧
      (persistBody env flt f sink p w1).2.dirs.filter (fun d => d.1 ≠ p)
        = w1.dirs.filter (fun d => d.1 ≠ p) ∧
      (persistBody env flt f sink p w1).2.openDBs = w1.openDBs ∧
      (persistBody env flt f sink p w1).2.snapshots = w1.snapshots ∧
      (∀ err, flt.openFile = some err →
        persistBody env flt f sink p w1 = (some err, w1)) ∧
      (flt.openFile = none → ∀ err,
        firstPutFault flt.put (iterPairs flt.iter f.snapshot.view).length = some err →
        (persistBody env flt f sink p w1).1 = some err ∧
        (persistBody env flt f sink p w1).2.iters = w1.iters + 1 ∧
        (persistBody env flt f sink p w1).2.trace
          = w1.trace ++ ([Event.openFile p w1.nextDB, Event.newIterator] ++ puts
              ++ [Event.dbClose w1.nextDB, Event.sinkCancel sink])) ∧
      (flt.openFile = none → firstPutFault flt.put (iterPairs flt.iter f.snapshot.view).length = none →
        (persistBody env flt f sink p w1).2.iters = w1.iters ∧
        (∀ err, flt.tar = some err →
          (persistBody env flt f sink p w1).1 = some err ∧
          (persistBody env flt f sink p w1).2.trace
            = w1.trace ++ ([Event.openFile p w1.nextDB, Event.newIterator] ++ puts
                ++ [Event.iterRelease, Event.dbClose w1.nextDB, Event.sinkCancel sink])) ∧
        (flt.tar = none → ∀ err, flt.gzipClose = some err →
          (persistBody env flt f sink p w1).1 = some err ∧
          (persistBody env flt f sink p w1).2.trace
            = w1.trace ++ ([Event.openFile p w1.nextDB, Event.newIterator] ++ puts
                ++ [Event.iterRelease, Event.dbClose w1.nextDB, Event.tar p,
                    Event.sinkCancel sink])) ∧
        (flt.tar = none → flt.gzipClose = none →
          (persistBody env flt f sink p w1).1 = none ∧
          (persistBody env flt f sink p w1).2.trace
            = w1.trace ++ ([Event.openFile p w1.nextDB, Event.newIterator] ++ puts
                ++ [Event.iterRelease, Event.dbClose w1.nextDB, Event.tar p,
                    Event.sinkWrite sink
                      (env.gzipWrite (env.Tar (env.dbFiles (copyKV [] (iterPairs flt.iter f.snapshot.view))))),
                    Event.gzipClose sink, Event.sinkClose sink]))) := by
  obtain ⟨ftd, fop, fit, fput, ftar, fgz⟩ := flt
  cases fop with
  | some e0 =>
    exact ⟨[], by simp [persistBody, leveldb.OpenFile]⟩
  | none =>
    -- the scratch engine and the world at the head of the copy loop
    let db0 : leveldb.DB := { id := w1.nextDB, path := p, kv := [] }
    let w3 : World := (leveldb.Snapshot.NewIterator fit f.snapshot
      { (w1.writeDir p (env.dbFiles [])) with
          openDBs := w1.nextDB :: w1.openDBs, nextDB := w1.nextDB + 1,
          trace := w1.trace ++ [Event.openFile p w1.nextDB] }).2
    have hbody : persistBody env ⟨ftd, none, fit, fput, ftar, fgz⟩ f sink p w1
        = (match copyLoop env fput db0 (iterPairs fit f.snapshot.view) w3 with
          | (some err, db1, w4) =>
            (some err, (leveldb.DB.Close db1 w4).log (Event.sinkCancel sink))
          | (none, db1, w4) =>
            match Tar env ftar p (leveldb.DB.Close db1 (iterator.Release w4)) with
            | (.error err, w6) => (some err, w6.log (Event.sinkCancel sink))
            | (.ok fed, w6) =>
              match gzip.Writer.Close env fgz sink fed w6 with
              | (some err, w7) => (some err, w7.log (Event.sinkCancel sink))
              | (none, w7) => (none, w7.log (Event.sinkClose sink))) := by
      simp [persistBody, leveldb.OpenFile, hp, openKV, World.writeDir, db0, w3,
        leveldb.Snapshot.NewIterator]
    have hdir3 : w3.readDir db0.path = some (env.dbFiles db0.kv) := by
      have h := writeDir_readDir w1 p (env.dbFiles []) (by simp [hp])
      simpa [w3, db0, leveldb.Snapshot.NewIterator, World.readDir, World.writeDir] using h
    obtain ⟨puts, h1, h2, h3, h4, h5, h6, h7, h8, h9⟩ :=
      copyLoop_frame env (iterPairs fit f.snapshot.view) fput db0 w3
    have hres := copyLoop_result env (iterPairs fit f.snapshot.view) fput db0 w3
    have hkv := copyLoop_kv env (iterPairs fit f.snapshot.view) fput db0 w3
    have hfilt3 : w3.dirs.filter (fun d => d.1 ≠ p) = w1.dirs.filter (fun d => d.1 ≠ p) := by
      have := writeDir_filter w1 p (env.dbFiles [])
      simpa [w3, leveldb.Snapshot.NewIterator, World.writeDir] using this
    refine ⟨puts, h2, ?_⟩
    rw [hbody]
    rcases hc : copyLoop env fput db0 (iterPairs fit f.snapshot.view) w3 with ⟨r, db1, w4⟩
    rw [hc] at h1 h3 h4 h5 h6 h7 h8 h9 hres hkv
    simp only at h1 h3 h4 h5 h6 h7 h8 h9 hres hkv
    have hid : db1.id = w1.nextDB := h3
    have hpath : db1.path = p := h4
    cases r with
    | some err =>
      simp only [leveldb.DB.Close, World.log, hid, h1, h5, h7, h8, ← hres]
      refine ⟨?_, ?_, ?_, ?_, ?_, ?_⟩
      · rw [← hfilt3]; exact h9
      · simp [w3, leveldb.Snapshot.NewIterator, World.writeDir]
      · simp [w3, leveldb.Snapshot.NewIterator, World.writeDir]
      · intro e h; cases h
      · intro _ e h
        cases h
        simp [w3, leveldb.Snapshot.NewIterator, World.writeDir]
      · intro _ h; cases h
    | none =>
      obtain ⟨hkv1, hdir4⟩ := hkv rfl hdir3
      have hkv1 : db1.kv = copyKV [] (iterPairs fit f.snapshot.view) := hkv1
      have hdir5 : (leveldb.DB.Close db1 (iterator.Release w4)).readDir p
          = some (env.dbFiles (copyKV [] (iterPairs fit f.snapshot.view))) := by
        rw [← hkv1]
        simpa [leveldb.DB.Close, iterator.Release, World.readDir, db0] using hdir4
      have hfilt : w4.dirs.filter (fun d => d.1 ≠ p) = w1.dirs.filter (fun d => d.1 ≠ p) := by
        rw [← hfilt3]; exact h9
      cases ftar with
      | some e1 =>
        simp only [Tar, leveldb.DB.Close, iterator.Release, World.log, hid, h1, h5, h7, h8, ← hres]
        refine ⟨hfilt, ?_, ?_, ?_, ?_, ?_⟩
        · simp [w3, leveldb.Snapshot.NewIterator, World.writeDir]
        · simp [w3, leveldb.Snapshot.NewIterator, World.writeDir]
        · intro e h; cases h
        · intro _ e h; cases h
        · intro _ _
          simp [w3, leveldb.Snapshot.NewIterator, World.writeDir]
      | none =>
        simp only [Tar, hdir5]
        cases fgz with
        | some e2 =>
          simp only [gzip.Writer.Close, leveldb.DB.Close, iterator.Release, World.log, hid, h1, h5,
            h7, h8, ← hres]
          refine ⟨hfilt, ?_, ?_, ?_, ?_, ?_⟩
          · simp [w3, leveldb.Snapshot.NewIterator, World.writeDir]
          · simp [w3, leveldb.Snapshot.NewIterator, World.writeDir]
          · intro e h; cases h
          · intro _ e h; cases h
          · intro _ _
            simp [w3, leveldb.Snapshot.NewIterator, World.writeDir]
        | none =>
          simp only [gzip.Writer.Close, leveldb.DB.Close, iterator.Release, World.log, hid, h1, h5,
            h7, h8, ← hres]
          refine ⟨hfilt, ?_, ?_, ?_, ?_, ?_⟩
          · simp [w3, leveldb.Snapshot.NewIterator, World.writeDir]
          · simp [w3, leveldb.Snapshot.NewIterator, World.writeDir]
          · intro e h; cases h
          · intro _ e h; cases h
          · intro _ _
            simp [w3, leveldb.Snapshot.NewIterator, World.writeDir]

theorem Persist_spec (env : Env) (flt : PersistFaults) (f : fsmSnapshot) (sink : Nat)
    (w : World) :
    (∀ err, flt.tempDir = some err →
      fsmSnapshot.Persist env flt f sink w = (some err, w)) ∧
    (flt.tempDir = none →
      ∃ puts : List Event,
      (∀ e ∈ puts, ∃ k v, e = Event.dbPut w.nextDB k v) ∧
      (fsmSnapshot.Persist env flt f sink w).2.dirs = w.dirs ∧
      (fsmSnapshot.Persist env flt f sink w).2.openDBs = w.openDBs ∧
      (fsmSnapshot.Persist env flt f sink w).2.snapshots = w.snapshots ∧
      (∀ err, flt.openFile = some err →
        (fsmSnapshot.Persist env flt f sink w).1 = some err ∧
        (fsmSnapshot.Persist env flt f sink w).2.iters = w.iters ∧
        (fsmSnapshot.Persist env flt f sink w).2.trace
          = w.trace ++ [Event.tempDir { root := env.osTempDir, name := freshName w.dirs },
              Event.removeAll { root := env.osTempDir, name := freshName w.dirs }]) ∧
      (flt.openFile = none → ∀ err,
        firstPutFault flt.put (iterPairs flt.iter f.snapshot.view).length = some err →
        (fsmSnapshot.Persist env flt f sink w).1 = some err ∧
        (fsmSnapshot.Persist env flt f sink w).2.iters = w.iters + 1 ∧
        (fsmSnapshot.Persist env flt f sink w).2.trace
          = w.trace ++ ([Event.tempDir { root := env.osTempDir, name := freshName w.dirs },
              Event.openFile { root := env.osTempDir, name := freshName w.dirs } w.nextDB,
              Event.newIterator] ++ puts
              ++ [Event.dbClose w.nextDB, Event.sinkCancel sink,
                  Event.removeAll { root := env.osTempDir, name := freshName w.dirs }])) ∧
      (flt.openFile = none → firstPutFault flt.put (iterPairs flt.iter f.snapshot.view).length = none →
        (fsmSnapshot.Persist env flt f sink w).2.iters = w.iters ∧
        (∀ err, flt.tar = some err →
          (fsmSnapshot.Persist env flt f sink w).1 = some err ∧
          (fsmSnapshot.Persist env flt f sink w).2.trace
            = w.trace ++ ([Event.tempDir { root := env.osTempDir, name := freshName w.dirs },
                Event.openFile { root := env.osTempDir, name := freshName w.dirs } w.nextDB,
                Event.newIterator] ++ puts
                ++ [Event.iterRelease, Event.dbClose w.nextDB, Event.sinkCancel sink,
                    Event.removeAll { root := env.osTempDir, name := freshName w.dirs }])) ∧
        (flt.tar = none → ∀ err, flt.gzipClose = some err →
          (fsmSnapshot.Persist env flt f sink w).1 = some err ∧
          (fsmSnapshot.Persist env flt f sink w).2.trace
            = w.trace ++ ([Event.tempDir { root := env.osTempDir, name := freshName w.dirs },
                Event.openFile { root := env.osTempDir, name := freshName w.dirs } w.nextDB,
                Event.newIterator] ++ puts
                ++ [Event.iterRelease, Event.dbClose w.nextDB,
                    Event.tar { root := env.osTempDir, name := freshName w.dirs },
                    Event.sinkCancel sink,
                    Event.removeAll { root := env.osTempDir, name := freshName w.dirs }])) ∧
        (flt.tar = none → flt.gzipClose = none →
          (fsmSnapshot.Persist env flt f sink w).1 = none ∧
          (fsmSnapshot.Persist env flt f sink w).2.trace
            = w.trace ++ ([Event.tempDir { root := env.osTempDir, name := freshName w.dirs },
                Event.openFile { root := env.osTempDir, name := freshName w.dirs } w.nextDB,
                Event.newIterator] ++ puts
                ++ [Event.iterRelease, Event.dbClose w.nextDB,
                    Event.tar { root := env.osTempDir, name := freshName w.dirs },
                    Event.sinkWrite sink
                      (env.gzipWrite (env.Tar (env.dbFiles (copyKV [] (iterPairs flt.iter f.snapshot.view))))),
                    Event.gzipClose sink, Event.sinkClose sink,
                    Event.removeAll { root := env.osTempDir, name := freshName w.dirs }])))) := by
  constructor
  · intro err h
    simp [fsmSnapshot.Persist, ioutil.TempDir, h]
  · intro htd
    have hP : fsmSnapshot.Persist env flt f sink w
        = ((persistBody env flt f sink { root := env.osTempDir, name := freshName w.dirs }
              { w with dirs := ({ root := env.osTempDir, name := freshName w.dirs }, []) :: w.dirs,
                       trace := w.trace ++ [Event.tempDir
                          { root := env.osTempDir, name := freshName w.dirs }] }).1,
           os.RemoveAll { root := env.osTempDir, name := freshName w.dirs }
            (persistBody env flt f sink { root := env.osTempDir, name := freshName w.dirs }
              { w with dirs := ({ root := env.osTempDir, name := freshName w.dirs }, []) :: w.dirs,
                       trace := w.trace ++ [Event.tempDir
                          { root := env.osTempDir, name := freshName w.dirs }] }).2) := by
      simp [fsmSnapshot.Persist, ioutil.TempDir, htd]
    obtain ⟨puts, hputs, hdirs, hopen, hsnap, hA, hB, hC⟩ :=
      persistBody_spec env flt f sink { root := env.osTempDir, name := freshName w.dirs }
        { w with dirs := ({ root := env.osTempDir, name := freshName w.dirs }, []) :: w.dirs,
                 trace := w.trace ++ [Event.tempDir
                    { root := env.osTempDir, name := freshName w.dirs }] }
        (by simp [World.readDir])
    refine ⟨puts, hputs, ?_, ?_, ?_, ?_, ?_, ?_⟩
    · rw [hP]
      simp only [os.RemoveAll]
      rw [hdirs]
      simp only [List.filter_cons, ne_eq, not_true_eq_false, decide_False]
      exact filter_fresh env.osTempDir w.dirs
    · rw [hP]; simpa [os.RemoveAll] using hopen
    · rw [hP]; simpa [os.RemoveAll] using hsnap
    · intro err h
      rw [hP, hA err h]
      simp [os.RemoveAll]
    · intro ho err h
      obtain ⟨h1, h2, h3⟩ := hB ho err h
      rw [hP]
      refine ⟨h1, by simpa [os.RemoveAll] using h2, ?_⟩
      simp only [os.RemoveAll, h3]
      simp
    · intro ho hn
      obtain ⟨h0, h1, h2, h3⟩ := hC ho hn
      rw [hP]
      refine ⟨by simpa [os.RemoveAll] using h0, ?_, ?_, ?_⟩
      · intro err h
        obtain ⟨ha, hb⟩ := h1 err h
        refine ⟨ha, ?_⟩
        simp only [os.RemoveAll, hb]
        simp
      · intro ht err h
        obtain ⟨ha, hb⟩ := h2 ht err h
        refine ⟨ha, ?_⟩
        simp only [os.RemoveAll, hb]
        simp
      · intro ht hg
        obtain ⟨ha, hb⟩ := h3 ht hg
        refine ⟨ha, ?_⟩
        simp only [os.RemoveAll, hb]
        simp

theorem KV.get_cons (k v key : Bytes) (rest : KV) :
    KV.get ((k, v) :: rest) key = if k = key then some v else KV.get rest key := by
  unfold KV.get
  by_cases h : k = key
  · simp [h]
  · rw [List.find?_cons_of_neg _ (by simpa using h), if_neg h]

theorem KV.get_none_of_not_mem (kv : KV) (key : Bytes) (h : key ∉ kv.map Prod.fst) :
    KV.get kv key = none := by
  induction kv with
  | nil => rfl
  | cons e rest ih =>
    obtain ⟨k, v⟩ := e
    simp only [List.map_cons, List.mem_cons, not_or] at h
    rw [KV.get_cons, if_neg (fun hk => h.1 hk.symm)]
    exact ih h.2

theorem KV.get_of_mem (kv : KV) (key value : Bytes) (hnodup : (kv.map Prod.fst).Nodup)
    (h : (key, value) ∈ kv) : KV.get kv key = some value := by
  induction kv with
  | nil => cases h
  | cons e rest ih =>
    obtain ⟨k, v⟩ := e
    simp only [List.map_cons, List.nodup_cons] at hnodup
    rw [KV.get_cons]
    rcases List.mem_cons.mp h with heq | hin
    · cases heq
      simp
    · have hne : ¬ k = key := by
        intro hk
        apply hnodup.1
        rw [hk]
        exact List.mem_map_of_mem Prod.fst hin
      rw [if_neg hne]
      exact ih hnodup.2 hin

theorem copyKV_get (view : KV) : ∀ (kv0 : KV) (key : Bytes),
    (view.map Prod.fst).Nodup →
    KV.get (copyKV kv0 view) key
      = (match KV.get view key with
         | some v => some v
         | none => KV.get kv0 key) := by
  induction view with
  | nil => intro kv0 key _; rfl
  | cons e rest ih =>
    intro kv0 key hnodup
    obtain ⟨k, v⟩ := e
    simp only [List.map_cons, List.nodup_cons] at hnodup
    have hstep : copyKV kv0 ((k, v) :: rest) = copyKV (KV.put kv0 k v) rest := rfl
    rw [hstep, ih (KV.put kv0 k v) key hnodup.2, KV.get_cons, KV.get_put]
    by_cases hk : k = key
    · subst hk
      rw [KV.get_none_of_not_mem rest k hnodup.1]
      simp
    · simp only [hk, if_false]

theorem copyKV_nil_get (view : KV) (key : Bytes) (hnodup : (view.map Prod.fst).Nodup) :
    KV.get (copyKV [] view) key = KV.get view key := by
  rw [copyKV_get view [] key hnodup]
  cases KV.get view key <;> rfl

theorem sinkContents_append (sink : Nat) (a b : List Event) :
    sinkContents sink (a ++ b) = sinkContents sink a ++ sinkContents sink b := by
  induction a with
  | nil => rfl
  | cons e rest ih =>
    cases e <;> simp [sinkContents, ih]
    split <;> simp

theorem sinkContents_puts (sink id : Nat) (puts : List Event)
    (h : ∀ e ∈ puts, ∃ k v, e = Event.dbPut id k v) : sinkContents sink puts = [] := by
  induction puts with
  | nil => rfl
  | cons e rest ih =>
    obtain ⟨k, v, rfl⟩ := h e (List.mem_cons_self _ _)
    simp only [sinkContents]
    exact ih (fun e he => h e (List.mem_cons_of_mem _ he))

theorem not_mem_puts (id : Nat) (puts : List Event)
    (h : ∀ e ∈ puts, ∃ k v, e = Event.dbPut id k v) (e : Event)
    (hne : ∀ k v, e ≠ Event.dbPut id k v) : e ∉ puts := by
  intro he
  obtain ⟨k, v, hk⟩ := h e he
  exact hne k v hk

/-- The failures `Persist` checks for: once its scratch directory and scratch
engine are open, if a `Put` of the copy loop, `Tar`, or the close of the gzip
writer fails, `Persist` returns the first such failure, calls `sink.Cancel` and
never `sink.Close`, and removes the scratch directory, so that the directories
on disk are as before the call. -/
theorem Persist_checked_failure_cancels (env : Env) (flt : PersistFaults) (f : fsmSnapshot)
    (sink : Nat) (w : World) (err : Error)
    (hdir : flt.tempDir = none) (hopen : flt.openFile = none)
    (hfail : flt.ioFault (iterPairs flt.iter f.snapshot.view).length = some err) :
    (fsmSnapshot.Persist env flt f sink w).1 = some err ∧
    (fsmSnapshot.Persist env flt f sink w).2.dirs = w.dirs ∧
    ∃ evs, (fsmSnapshot.Persist env flt f sink w).2.trace = w.trace ++ evs ∧
      Event.sinkCancel sink ∈ evs ∧ Event.sinkClose sink ∉ evs ∧
      Event.removeAll { root := env.osTempDir, name := freshName w.dirs } ∈ evs := by
  obtain ⟨puts, hputs, hdirs, -, -, -, hB, hC⟩ := (Persist_spec env flt f sink w).2 hdir
  have hnc : Event.sinkClose sink ∉ puts :=
    not_mem_puts _ puts hputs _ (fun _ _ h => by cases h)
  refine ⟨?_, hdirs, ?_⟩
  · unfold PersistFaults.ioFault at hfail
    cases hp : firstPutFault flt.put (iterPairs flt.iter f.snapshot.view).length with
    | some e =>
      rw [hp] at hfail
      cases hfail
      exact (hB hopen _ hp).1
    | none =>
      rw [hp] at hfail
      obtain ⟨-, h1, h2, -⟩ := hC hopen hp
      cases ht : flt.tar with
      | some e =>
        rw [ht] at hfail
        cases hfail
        exact (h1 _ ht).1
      | none =>
        rw [ht] at hfail
        exact (h2 ht err hfail).1
  · unfold PersistFaults.ioFault at hfail
    cases hp : firstPutFault flt.put (iterPairs flt.iter f.snapshot.view).length with
    | some e =>
      exact ⟨_, (hB hopen e hp).2.2, by simp, by simp [hnc], by simp⟩
    | none =>
      rw [hp] at hfail
      obtain ⟨-, h1, h2, -⟩ := hC hopen hp
      cases ht : flt.tar with
      | some e =>
        exact ⟨_, (h1 e ht).2, by simp, by simp [hnc], by simp⟩
      | none =>
        rw [ht] at hfail
        exact ⟨_, (h2 ht err hfail).2, by simp, by simp [hnc], by simp⟩

/-- C5, at the failing input: the iterator over the view (`a = 1`, `b = 2`)
meets a read failure after its first pair, which is a failure while copying the
view; `Next()` is then false, the loop ends as if the view were exhausted, and
`Persist` returns nil, having called `sink.Close` and never `sink.Cancel`. -/
theorem Persist_iterator_failure_closes_sink :
    (leveldb.Snapshot.NewIterator iterFails.iter refSnap.snapshot refWorld2).1.err
      = some (Error.ext 5) ∧
    (fsmSnapshot.Persist refEnv iterFails refSnap 0 refWorld2).1 = none ∧
    Event.sinkClose 0 ∈
      (fsmSnapshot.Persist refEnv iterFails refSnap 0 refWorld2).2.trace.drop
        refWorld2.trace.length ∧
    Event.sinkCancel 0 ∉
      (fsmSnapshot.Persist refEnv iterFails refSnap 0 refWorld2).2.trace.drop
        refWorld2.trace.length := by
  decide

/-- C6: when `Persist` returns nil, the calls it made contain no `sink.Cancel`
and exactly one `sink.Close`, which comes right after the successful close of
the gzip writer; when `Persist` returns an error, it made no `sink.Close`. -/
theorem Persist_success_closes_sink (env : Env) (flt : PersistFaults) (f : fsmSnapshot)
    (sink : Nat) (w : World) :
    ∃ evs, (fsmSnapshot.Persist env flt f sink w).2.trace = w.trace ++ evs ∧
      ((fsmSnapshot.Persist env flt f sink w).1 = none →
        Event.sinkCancel sink ∉ evs ∧
        ∃ pre post, evs = pre ++ Event.gzipClose sink :: Event.sinkClose sink :: post ∧
          Event.sinkClose sink ∉ pre ∧ Event.sinkClose sink ∉ post) ∧
      ((fsmSnapshot.Persist env flt f sink w).1 ≠ none → Event.sinkClose sink ∉ evs) := by
  cases hd : flt.tempDir with
  | some e =>
    have h := (Persist_spec env flt f sink w).1 e hd
    exact ⟨[], by simp [h]⟩
  | none =>
    obtain ⟨puts, hputs, -, -, -, hA, hB, hC⟩ := (Persist_spec env flt f sink w).2 hd
    have hnc : Event.sinkClose sink ∉ puts :=
      not_mem_puts _ puts hputs _ (fun _ _ h => by cases h)
    have hnk : Event.sinkCancel sink ∉ puts :=
      not_mem_puts _ puts hputs _ (fun _ _ h => by cases h)
    cases ho : flt.openFile with
    | some e =>
      obtain ⟨h1, -, h3⟩ := hA e ho
      exact ⟨_, h3, by simp [h1], by simp⟩
    | none =>
      cases hp : firstPutFault flt.put (iterPairs flt.iter f.snapshot.view).length with
      | some e =>
        obtain ⟨h1, -, h3⟩ := hB ho e hp
        exact ⟨_, h3, by simp [h1], by simp [hnc]⟩
      | none =>
        obtain ⟨-, h1, h2, h3⟩ := hC ho hp
        cases ht : flt.tar with
        | some e =>
          obtain ⟨ha, hb⟩ := h1 e ht
          exact ⟨_, hb, by simp [ha], by simp [hnc]⟩
        | none =>
          cases hg : flt.gzipClose with
          | some e =>
            obtain ⟨ha, hb⟩ := h2 ht e hg
            exact ⟨_, hb, by simp [ha], by simp [hnc]⟩
          | none =>
            obtain ⟨ha, hb⟩ := h3 ht hg
            refine ⟨_, hb, ?_, by simp [ha]⟩
            intro _
            refine ⟨by simp [hnk], ?_⟩
            refine ⟨[Event.tempDir { root := env.osTempDir, name := freshName w.dirs },
                Event.openFile { root := env.osTempDir, name := freshName w.dirs } w.nextDB,
                Event.newIterator] ++ puts
                ++ [Event.iterRelease, Event.dbClose w.nextDB,
                    Event.tar { root := env.osTempDir, name := freshName w.dirs },
                    Event.sinkWrite sink
                      (env.gzipWrite (env.Tar (env.dbFiles (copyKV [] (iterPairs flt.iter f.snapshot.view)))))],
              [Event.removeAll { root := env.osTempDir, name := freshName w.dirs }],
              by simp, by simp [hnc], by simp⟩

/-- When the iterator yields the whole view, the view holding each key once, and
`Persist` returns nil, the archive the sink received is the archive of an
engine holding every pair of the view with its value and no other key. -/
theorem Persist_copies_whole_view_of_iterator_ok (env : Env) (flt : PersistFaults)
    (f : fsmSnapshot) (sink : Nat) (w : World)
    (hnodup : (f.snapshot.view.map Prod.fst).Nodup)
    (hiter : iterPairs flt.iter f.snapshot.view = f.snapshot.view)
    (hnil : (fsmSnapshot.Persist env flt f sink w).1 = none) :
    ∃ kv : KV,
      (∀ key value, (key, value) ∈ f.snapshot.view → KV.get kv key = some value) ∧
      (∀ key, key ∉ f.snapshot.view.map Prod.fst → KV.get kv key = none) ∧
      sinkContents sink ((fsmSnapshot.Persist env flt f sink w).2.trace.drop w.trace.length)
        = env.gzipWrite (env.Tar (env.dbFiles kv)) := by
  have hin : ∀ key value, (key, value) ∈ f.snapshot.view →
      KV.get (copyKV [] f.snapshot.view) key = some value := by
    intro key value h
    rw [copyKV_nil_get _ _ hnodup]
    exact KV.get_of_mem _ _ _ hnodup h
  have hout : ∀ key, key ∉ f.snapshot.view.map Prod.fst →
      KV.get (copyKV [] f.snapshot.view) key = none := by
    intro key h
    rw [copyKV_nil_get _ _ hnodup]
    exact KV.get_none_of_not_mem _ _ h
  refine ⟨copyKV [] f.snapshot.view, hin, hout, ?_⟩
  cases hd : flt.tempDir with
  | some e =>
    rw [(Persist_spec env flt f sink w).1 e hd] at hnil
    cases hnil
  | none =>
    obtain ⟨puts, hputs, -, -, -, hA, hB, hC⟩ := (Persist_spec env flt f sink w).2 hd
    cases ho : flt.openFile with
    | some e => rw [(hA e ho).1] at hnil; cases hnil
    | none =>
      cases hp : firstPutFault flt.put (iterPairs flt.iter f.snapshot.view).length with
      | some e => rw [(hB ho e hp).1] at hnil; cases hnil
      | none =>
        obtain ⟨-, h1, h2, h3⟩ := hC ho hp
        cases ht : flt.tar with
        | some e => rw [(h1 e ht).1] at hnil; cases hnil
        | none =>
          cases hg : flt.gzipClose with
          | some e => rw [(h2 ht e hg).1] at hnil; cases hnil
          | none =>
            rw [(h3 ht hg).2, List.drop_left, hiter]
            simp only [sinkContents_append, sinkContents_puts sink _ puts hputs]
            simp [sinkContents]

/-- C10, at the failing input: the iterator over the view (`a = 1`, `b = 2`)
meets a read failure after its first pair; `Persist` gets past its copy loop
and returns nil, and the archive the sink received is that of an engine holding
`b = 2` only: the pair `a = 1` of the view is missing. -/
theorem Persist_iterator_failure_copies_subset :
    (fsmSnapshot.Persist refEnv iterFails refSnap 7 refWorldSnap).1 = none ∧
    sinkContents 7 ((fsmSnapshot.Persist refEnv iterFails refSnap 7 refWorldSnap).2.trace.drop
        refWorldSnap.trace.length)
      = refEnv.gzipWrite (refEnv.Tar (refEnv.dbFiles [([98], [50])])) ∧
    (([97], [49]) : Bytes × Bytes) ∈ refSnap.snapshot.view ∧
    KV.get [([98], [50])] [97] = none := by
  decide

/-- Resources across a Snapshot/Persist/Release cycle: directories, open
engines and live snapshots are as before on every path; iterators are as
before on every path but the one where a `Put` of the copy loop fails, which
leaves one iterator unreleased. -/
theorem snapshotCycle_resources (env : Env) (snapFault : Option Error) (flt : PersistFaults)
    (f : FSM) (sink : Nat) (w : World) :
    (snapshotCycle env snapFault flt f sink w).2.dirs = w.dirs ∧
    (snapshotCycle env snapFault flt f sink w).2.openDBs = w.openDBs ∧
    (snapshotCycle env snapFault flt f sink w).2.snapshots = w.snapshots ∧
    ((snapshotCycle env snapFault flt f sink w).2.iters = w.iters ∨
      (snapFault = none ∧ flt.tempDir = none ∧ flt.openFile = none ∧
        (∃ err, firstPutFault flt.put (iterPairs flt.iter f.DB.kv).length = some err) ∧
        (snapshotCycle env snapFault flt f sink w).2.iters = w.iters + 1)) := by
  cases snapFault with
  | some e => simp [snapshotCycle, FSM.Snapshot, leveldb.DB.GetSnapshot]
  | none =>
    have hc : snapshotCycle env none flt f sink w
        = ((fsmSnapshot.Persist env flt { snapshot := { view := f.DB.kv } } sink
              { w with snapshots := w.snapshots + 1,
                       trace := w.trace ++ [Event.getSnapshot] }).1,
           fsmSnapshot.Release { snapshot := { view := f.DB.kv } }
            (fsmSnapshot.Persist env flt { snapshot := { view := f.DB.kv } } sink
              { w with snapshots := w.snapshots + 1,
                       trace := w.trace ++ [Event.getSnapshot] }).2) := by
      simp [snapshotCycle, FSM.Snapshot, leveldb.DB.GetSnapshot]
    rw [hc]
    simp only [fsmSnapshot.Release, leveldb.Snapshot.Release]
    cases hd : flt.tempDir with
    | some e =>
      rw [(Persist_spec env flt _ sink _).1 e hd]
      simp
    | none =>
      obtain ⟨puts, -, h1, h2, h3, hA, hB, hC⟩ := (Persist_spec env flt
        { snapshot := { view := f.DB.kv } } sink
        { w with snapshots := w.snapshots + 1, trace := w.trace ++ [Event.getSnapshot] }).2 hd
      refine ⟨h1, h2, by rw [h3]; simp, ?_⟩
      cases ho : flt.openFile with
      | some e => exact Or.inl (hA e ho).2.1
      | none =>
        cases hp : firstPutFault flt.put (iterPairs flt.iter f.DB.kv).length with
        | some e => exact Or.inr ⟨trivial, rfl, rfl, ⟨e, rfl⟩, (hB ho e hp).2.1⟩
        | none => exact Or.inl (hC ho hp).1

/-- C9, at the failing input: the cycle run on the reference state machine with
the first `Put` of the copy loop failing returns that failure and gives back
the scratch directory, the scratch engine and the snapshot, but leaves one
iterator unreleased. -/
theorem snapshotCycle_copy_failure_leaks_iterator :
    (snapshotCycle refEnv none firstPutFails refFSM2 0 refWorld2).1 = some (Error.ext 9) ∧
    (snapshotCycle refEnv none firstPutFails refFSM2 0 refWorld2).2.dirs = refWorld2.dirs ∧
    (snapshotCycle refEnv none firstPutFails refFSM2 0 refWorld2).2.openDBs
      = refWorld2.openDBs ∧
    (snapshotCycle refEnv none firstPutFails refFSM2 0 refWorld2).2.snapshots
      = refWorld2.snapshots ∧
    refWorld2.iters = 0 ∧
    (snapshotCycle refEnv none firstPutFails refFSM2 0 refWorld2).2.iters = 1 := by
  decide

/-! ## Restore -/

theorem map_update_fresh (root : String) (files : Files) (dirs : List (Path × Files)) :
    dirs.map (fun d => if d.1 = { root := root, name := freshName dirs }
        then (({ root := root, name := freshName dirs } : Path), files) else d) = dirs := by
  have h : ∀ d ∈ dirs, d.1 ≠ ({ root := root, name := freshName dirs } : Path) := by
    intro d hd heq
    have h1 := name_le_max dirs d hd
    have h2 : d.1.name = freshName dirs := by rw [heq]
    unfold freshName at h2
    omega
  conv_rhs => rw [← List.map_id dirs]
  apply List.map_congr_left
  intro d hd
  simp [h d hd]

theorem Restore_spec (env : Env) (flt : RestoreFaults) (f : FSM) (r : Bytes) (w : World) :
    (∀ err, env.gzipNewReader r = .error err →
      FSM.Restore env flt f r w = (some err, f, w.log Event.readerClose)) ∧
    (∀ zr, env.gzipNewReader r = .ok zr →
      (∀ err, flt.tempDir = some err →
        FSM.Restore env flt f r w = (some err, f, w.log Event.readerClose)) ∧
      (flt.tempDir = none →
        (∀ err, (env.Untar zr).2 = some err →
          (FSM.Restore env flt f r w).1 = some err ∧
          (FSM.Restore env flt f r w).2.1 = f ∧
          (FSM.Restore env flt f r w).2.2.dirs
            = ({ root := f.cfg.Dir, name := freshName w.dirs }, (env.Untar zr).1) :: w.dirs) ∧
        ((env.Untar zr).2 = none →
          (∀ err, flt.openFile = some err →
            (FSM.Restore env flt f r w).1 = some err ∧
            (FSM.Restore env flt f r w).2.1 = f ∧
            (FSM.Restore env flt f r w).2.2.dirs
              = ({ root := f.cfg.Dir, name := freshName w.dirs }, (env.Untar zr).1) :: w.dirs) ∧
          (flt.openFile = none →
            (∀ err, openKV env (env.Untar zr).1 = .error err →
              (FSM.Restore env flt f r w).1 = some err ∧
              (FSM.Restore env flt f r w).2.1 = f ∧
              (FSM.Restore env flt f r w).2.2.dirs
                = ({ root := f.cfg.Dir, name := freshName w.dirs }, (env.Untar zr).1)
                    :: w.dirs) ∧
            (∀ kv, openKV env (env.Untar zr).1 = .ok kv →
              (FSM.Restore env flt f r w).1 = none ∧
              (FSM.Restore env flt f r w).2.1
                = { cfg := f.cfg,
                    DB := { id := w.nextDB,
                            path := { root := f.cfg.Dir, name := freshName w.dirs },
                            kv := kv } } ∧
              (FSM.Restore env flt f r w).2.2.dirs
                = ({ root := f.cfg.Dir, name := freshName w.dirs }, env.dbFiles kv) :: w.dirs ∧
              (FSM.Restore env flt f r w).2.2.openDBs = w.nextDB :: w.openDBs))))) := by
  constructor
  · intro err h
    simp [FSM.Restore, restoreBody, h]
  · intro zr hz
    constructor
    · intro err h
      simp [FSM.Restore, restoreBody, hz, ioutil.TempDir, h]
    · intro htd
      rcases hU : env.Untar zr with ⟨files, uerr⟩
      have hmap := map_update_fresh f.cfg.Dir files w.dirs
      constructor
      · intro err h
        simp only at h
        subst h
        simp [FSM.Restore, restoreBody, hz, ioutil.TempDir, htd, Untar, hU, World.log,
          World.writeDir, hmap]
      · intro h
        simp only at h
        subst h
        constructor
        · intro err ho
          simp [FSM.Restore, restoreBody, hz, ioutil.TempDir, htd, Untar, hU, World.log,
            World.writeDir, hmap, leveldb.OpenFile, ho]
        · intro ho
          constructor
          · intro err hk
            simp only at hk
            simp [FSM.Restore, restoreBody, hz, ioutil.TempDir, htd, Untar, hU, World.log,
              World.writeDir, hmap, leveldb.OpenFile, ho, World.readDir, hk]
          · intro kv hk
            simp only at hk
            have hmap2 := map_update_fresh f.cfg.Dir (env.dbFiles kv) w.dirs
            simp [FSM.Restore, restoreBody, hz, ioutil.TempDir, htd, Untar, hU, World.log,
              World.writeDir, hmap, hmap2, leveldb.OpenFile, ho, World.readDir, hk]

/-- C3: when `Restore` returns an error the state machine still holds the engine
it held, contents included, and every directory that existed keeps its files;
the error is that of the step that failed (gzip header, scratch directory,
`Untar`, opening the engine); and when `Restore` returns nil the state machine
holds the engine newly opened on the freshly unpacked scratch directory. -/
theorem Restore_failure_keeps_engine (env : Env) (flt : RestoreFaults) (f : FSM) (r : Bytes)
    (w : World) :
    ((FSM.Restore env flt f r w).1 ≠ none → (FSM.Restore env flt f r w).2.1 = f) ∧
    ((FSM.Restore env flt f r w).2.1.DB ≠ f.DB → (FSM.Restore env flt f r w).1 = none) ∧
    (∀ err, env.gzipNewReader r = .error err → (FSM.Restore env flt f r w).1 = some err) ∧
    (∀ zr err, env.gzipNewReader r = .ok zr → flt.tempDir = some err →
      (FSM.Restore env flt f r w).1 = some err) ∧
    (∀ zr err, env.gzipNewReader r = .ok zr → flt.tempDir = none →
      (env.Untar zr).2 = some err → (FSM.Restore env flt f r w).1 = some err) ∧
    (∀ zr err, env.gzipNewReader r = .ok zr → flt.tempDir = none →
      (env.Untar zr).2 = none → flt.openFile = some err →
      (FSM.Restore env flt f r w).1 = some err) ∧
    (∀ zr err, env.gzipNewReader r = .ok zr → flt.tempDir = none →
      (env.Untar zr).2 = none → flt.openFile = none →
      openKV env (env.Untar zr).1 = .error err →
      (FSM.Restore env flt f r w).1 = some err) ∧
    ((FSM.Restore env flt f r w).1 = none →
      ∃ zr kv, env.gzipNewReader r = .ok zr ∧ (env.Untar zr).2 = none ∧
        openKV env (env.Untar zr).1 = .ok kv ∧
        (FSM.Restore env flt f r w).2.1
          = { cfg := f.cfg,
              DB := { id := w.nextDB, path := { root := f.cfg.Dir, name := freshName w.dirs },
                      kv := kv } } ∧
        (FSM.Restore env flt f r w).2.2.readDir { root := f.cfg.Dir, name := freshName w.dirs }
          = some (env.dbFiles kv) ∧
        w.nextDB ∈ (FSM.Restore env flt f r w).2.2.openDBs) ∧
    (∀ d ∈ w.dirs, d ∈ (FSM.Restore env flt f r w).2.2.dirs) := by
  obtain ⟨hE, hZ⟩ := Restore_spec env flt f r w
  have key : ((FSM.Restore env flt f r w).1 ≠ none → (FSM.Restore env flt f r w).2.1 = f) ∧
      ((FSM.Restore env flt f r w).1 = none →
      ∃ zr kv, env.gzipNewReader r = .ok zr ∧ (env.Untar zr).2 = none ∧
        openKV env (env.Untar zr).1 = .ok kv ∧
        (FSM.Restore env flt f r w).2.1
          = { cfg := f.cfg,
              DB := { id := w.nextDB, path := { root := f.cfg.Dir, name := freshName w.dirs },
                      kv := kv } } ∧
        (FSM.Restore env flt f r w).2.2.readDir { root := f.cfg.Dir, name := freshName w.dirs }
          = some (env.dbFiles kv) ∧
        w.nextDB ∈ (FSM.Restore env flt f r w).2.2.openDBs) ∧
      (∀ d ∈ w.dirs, d ∈ (FSM.Restore env flt f r w).2.2.dirs) := by
    cases hz : env.gzipNewReader r with
    | error e => rw [hE e hz]; simp [World.log]
    | ok zr =>
      obtain ⟨hT, hU⟩ := hZ zr hz
      cases htd : flt.tempDir with
      | some e => rw [hT e htd]; simp [World.log]
      | none =>
        obtain ⟨hUe, hUo⟩ := hU htd
        cases hu : (env.Untar zr).2 with
        | some e =>
          obtain ⟨h1, h2, h3⟩ := hUe e hu
          rw [h1, h2, h3]
          simp
          intro a b hab
          exact Or.inr hab
        | none =>
          obtain ⟨hOe, hOo⟩ := hUo hu
          cases ho : flt.openFile with
          | some e =>
            obtain ⟨h1, h2, h3⟩ := hOe e ho
            rw [h1, h2, h3]
            simp
            intro a b hab
            exact Or.inr hab
          | none =>
            obtain ⟨hKe, hKo⟩ := hOo ho
            cases hk : openKV env (env.Untar zr).1 with
            | error e =>
              obtain ⟨h1, h2, h3⟩ := hKe e hk
              rw [h1, h2, h3]
              simp
              intro a b hab
              exact Or.inr hab
            | ok kv =>
              obtain ⟨h1, h2, h3, h4⟩ := hKo kv hk
              refine ⟨fun h => absurd h1 h, fun _ => ⟨zr, kv, rfl, hu, hk, h2, ?_, ?_⟩, ?_⟩
              · simp [World.readDir, h3]
              · simp [h4]
              · intro d hd
                rw [h3]
                exact List.mem_cons_of_mem _ hd
  refine ⟨key.1, ?_, ?_, ?_, ?_, ?_, ?_, key.2.1, key.2.2⟩
  · intro hne
    by_contra hnn
    exact hne (by rw [key.1 hnn])
  · intro err h
    rw [hE err h]
  · intro zr err hz h
    rw [(hZ zr hz).1 err h]
  · intro zr err hz htd hu
    exact (((hZ zr hz).2 htd).1 err hu).1
  · intro zr err hz htd hu ho
    exact (((((hZ zr hz).2 htd).2 hu).1) err ho).1
  · intro zr err hz htd hu ho hk
    exact ((((((hZ zr hz).2 htd).2 hu).2 ho).1) err hk).1

/-- C7, at the failing input: `Restore` of an archive whose tar stream breaks off
after its first file returns the unpack error and leaves the state machine as
it was, but the scratch directory it created is still on disk, with the file
unpacked before the error. -/
theorem Restore_failure_leaves_scratch_dir :
    (FSM.Restore refEnv noRestoreFaults refFSM2 corruptArchive refWorld2).1
      = some (Error.ext 3) ∧
    (FSM.Restore refEnv noRestoreFaults refFSM2 corruptArchive refWorld2).2.1 = refFSM2 ∧
    (FSM.Restore refEnv noRestoreFaults refFSM2 corruptArchive refWorld2).2.2.dirs
      = ({ root := "/data", name := 2 }, [([1], [2])]) :: refWorld2.dirs ∧
    (FSM.Restore refEnv noRestoreFaults refFSM2 corruptArchive refWorld2).2.2.dirs
      ≠ refWorld2.dirs := by
  decide

/-! ## Snapshot, Persist, Restore -/

theorem refUntarAux_refTar : ∀ (files : Files) (fuel : Nat),
    (refTar files).length ≤ fuel → refUntarAux fuel (refTar files) = (files, none) := by
  intro files
  induction files with
  | nil => intro fuel _; cases fuel <;> rfl
  | cons e rest ih =>
    intro fuel hfuel
    obtain ⟨n, c⟩ := e
    cases fuel with
    | zero => simp [refTar] at hfuel
    | succ fuel =>
      have hlen : (refTar rest).length ≤ fuel := by
        simp [refTar] at hfuel
        omega
      have h1 : n.length ≤ (n ++ c.length :: (c ++ refTar rest)).length := by simp
      have h2 : c.length ≤ (c ++ refTar rest).length := by simp
      simp only [refTar, refUntarAux, h1, if_true, List.drop_left, h2, List.take_left,
        ih fuel hlen]

theorem refEnv_codec (files : Files) :
    ∃ zr, refEnv.gzipNewReader (refEnv.gzipWrite (refEnv.Tar files)) = .ok zr ∧
      refEnv.Untar zr = (files, none) :=
  ⟨refTar files, rfl, refUntarAux_refTar files _ (le_refl _)⟩

theorem refEnv_reopen (kv : KV) :
    ∃ kv1, openKV refEnv (refEnv.dbFiles kv) = .ok kv1 ∧ ∀ key, KV.get kv1 key = KV.get kv key := by
  cases kv with
  | nil => exact ⟨[], rfl, fun _ => rfl⟩
  | cons e rest => exact ⟨e :: rest, rfl, fun _ => rfl⟩

/-- C4: the archive codec round-tripping directory trees and the engine
reopening its own files with the same contents, take a snapshot of a state
machine whose contents `S` hold each key once, persist it (in whatever world,
so before or after further writes to the original), and restore the bytes the
sink received on any other state machine: if the iterator of `Persist` yields
the whole view (no read of the view fails) and `Persist` and `Restore` return
nil, `Get` on the restored machine agrees with `S` on every key, while `Get` on
the original after further writes returns the last value written to a key
written and the value of `S` elsewhere. -/
theorem snapshot_restore_roundtrip (env : Env) (f : FSM) (w : World)
    (snapFault : Option Error) (snap : fsmSnapshot) (w1 : World)
    (run : List (raft.Log × Option Error)) (cmds : List (Bytes × Bytes)) (wa : World)
    (pflt : PersistFaults) (sink : Nat) (wp : World)
    (rflt : RestoreFaults) (g : FSM) (wr : World)
    (hcodec : ∀ files, ∃ zr, env.gzipNewReader (env.gzipWrite (env.Tar files)) = .ok zr ∧
      env.Untar zr = (files, none))
    (hreopen : ∀ kv, ∃ kv1, openKV env (env.dbFiles kv) = .ok kv1 ∧
      ∀ key, KV.get kv1 key = KV.get kv key)
    (hnodup : (f.DB.kv.map Prod.fst).Nodup)
    (hsnap : FSM.Snapshot snapFault f w = (.ok snap, w1))
    (hiter : iterPairs pflt.iter snap.snapshot.view = snap.snapshot.view)
    (hdec : List.Forall₂ (fun lf c => env.Unmarshal lf.1.Data
        = .ok { Action := env.Write, Key := c.1, Data := c.2 }) run cmds)
    (hok : ∀ r ∈ (applyAll env f wa run).1, r = none)
    (hpersist : (fsmSnapshot.Persist env pflt snap sink wp).1 = none)
    (hrestore : (FSM.Restore env rflt g
      (sinkContents sink ((fsmSnapshot.Persist env pflt snap sink wp).2.trace.drop
        wp.trace.length)) wr).1 = none) :
    (∀ key, FSM.Get (FSM.Restore env rflt g
      (sinkContents sink ((fsmSnapshot.Persist env pflt snap sink wp).2.trace.drop
        wp.trace.length)) wr).2.1 key = FSM.Get f key) ∧
    (∀ key, key ∈ cmds.map Prod.fst →
      ∃ v, lastWrite key cmds = some v ∧ FSM.Get (applyAll env f wa run).2.1 key = some v) ∧
    (∀ key, key ∉ cmds.map Prod.fst →
      FSM.Get (applyAll env f wa run).2.1 key = FSM.Get f key) := by
  have hview : snap.snapshot.view = f.DB.kv := by
    cases snapFault with
    | some e => simp [FSM.Snapshot, leveldb.DB.GetSnapshot] at hsnap
    | none =>
      simp only [FSM.Snapshot, leveldb.DB.GetSnapshot, Prod.mk.injEq, Except.ok.injEq] at hsnap
      rw [← hsnap.1]
  have hbytes : sinkContents sink ((fsmSnapshot.Persist env pflt snap sink wp).2.trace.drop
      wp.trace.length) = env.gzipWrite (env.Tar (env.dbFiles (copyKV [] f.DB.kv))) := by
    cases hd : pflt.tempDir with
    | some e =>
      rw [(Persist_spec env pflt snap sink wp).1 e hd] at hpersist
      cases hpersist
    | none =>
      obtain ⟨puts, hputs, -, -, -, hA, hB, hC⟩ := (Persist_spec env pflt snap sink wp).2 hd
      cases ho : pflt.openFile with
      | some e => rw [(hA e ho).1] at hpersist; cases hpersist
      | none =>
        cases hp : firstPutFault pflt.put (iterPairs pflt.iter snap.snapshot.view).length with
        | some e => rw [(hB ho e hp).1] at hpersist; cases hpersist
        | none =>
          obtain ⟨-, h1, h2, h3⟩ := hC ho hp
          cases ht : pflt.tar with
          | some e => rw [(h1 e ht).1] at hpersist; cases hpersist
          | none =>
            cases hg : pflt.gzipClose with
            | some e => rw [(h2 ht e hg).1] at hpersist; cases hpersist
            | none =>
              rw [(h3 ht hg).2, List.drop_left, hiter, ← hview]
              simp only [sinkContents_append, sinkContents_puts sink _ puts hputs]
              simp [sinkContents]
  rw [hbytes] at hrestore ⊢
  obtain ⟨zr, hz, hu⟩ := hcodec (env.dbFiles (copyKV [] f.DB.kv))
  obtain ⟨kv1, hk, hget⟩ := hreopen (copyKV [] f.DB.kv)
  have hu2 : (env.Untar zr).2 = none := by rw [hu]
  have hk1 : openKV env (env.Untar zr).1 = .ok kv1 := by rw [hu]; exact hk
  obtain ⟨hT, hU⟩ := (Restore_spec env rflt g
    (env.gzipWrite (env.Tar (env.dbFiles (copyKV [] f.DB.kv)))) wr).2 zr hz
  have hf2 : (FSM.Restore env rflt g
      (env.gzipWrite (env.Tar (env.dbFiles (copyKV [] f.DB.kv)))) wr).2.1
      = { cfg := g.cfg,
          DB := { id := wr.nextDB, path := { root := g.cfg.Dir, name := freshName wr.dirs },
                  kv := kv1 } } := by
    cases htd : rflt.tempDir with
    | some e => rw [hT e htd] at hrestore; cases hrestore
    | none =>
      obtain ⟨hOe, hOo⟩ := (hU htd).2 hu2
      cases ho : rflt.openFile with
      | some e => rw [(hOe e ho).1] at hrestore; cases hrestore
      | none => exact ((hOo ho).2 kv1 hk1).2.1
  refine ⟨?_, ?_, ?_⟩
  · intro key
    rw [hf2]
    simp only [FSM.Get, leveldb.DB.Get]
    rw [hget key, copyKV_nil_get _ _ hnodup]
  · intro key hmem
    have h := applyAll_get env run cmds f wa hdec hok key
    cases hl : lastWrite key cmds with
    | none => exact absurd hmem ((lastWrite_none_iff key cmds).mp hl)
    | some v =>
      rw [hl] at h
      exact ⟨v, rfl, h⟩
  · intro key hmem
    have h := applyAll_get env run cmds f wa hdec hok key
    rw [(lastWrite_none_iff key cmds).mpr hmem] at h
    exact h

/-- Witness for C4, under the reference environment: `Write(a, 1)`,
`Write(b, 2)`, `Snapshot`, `Persist`, `Write(a, 3)`, then `Restore` of the
archive on a state machine newly made by `NewFSM`: the restored machine has
`a = 1`, `b = 2`, the original has `a = 3`. -/
theorem snapshot_restore_roundtrip_witness :
    NewFSM refEnv { tempDir := none, openFile := none } { Dir := "/node2" } refWorld3
      = (.ok freshFSM, freshWorld) ∧
    FSM.Get (FSM.Restore refEnv noRestoreFaults freshFSM refArchive freshWorld).2.1 [97]
      = some [49] ∧
    FSM.Get (FSM.Restore refEnv noRestoreFaults freshFSM refArchive freshWorld).2.1 [98]
      = some [50] ∧
    FSM.Get refFSM3 [97] = some [51] := by
  have h := snapshot_restore_roundtrip refEnv refFSM2 refWorld2 none refSnap refWorldSnap
    refRun3 [([97], [51])] refWorldPersist noFaults 7 refWorldSnap noRestoreFaults freshFSM
    freshWorld refEnv_codec refEnv_reopen (by decide) rfl rfl
    (List.Forall₂.cons rfl List.Forall₂.nil) (by decide) (by decide) (by decide)
  refine ⟨rfl, (h.1 [97]).trans (by decide), (h.1 [98]).trans (by decide), ?_⟩
  obtain ⟨v, hv, hg⟩ := h.2.1 [97] (by decide)
  have h51 : lastWrite [97] [([97], [51])] = some [51] := by decide
  rw [h51] at hv
  cases hv
  exact hg

end service
